import Mathlib

/-!
Verification development for the PLCopen-to-Mermaid ST translator
(st_processor.py / mermaid_processor.py).

Strings are modelled as lists of characters (`Str`), Python string
operations as structurally recursive Lean functions:

* str.split()            -> sWords      (whitespace run splitting, no empties)
* ' '.join(..)           -> joinSp
* str.strip()            -> sStrip
* str.rstrip(";:")       -> rstripSet
* str.upper()            -> sUpper      (ASCII case folding, as required by the
                                         keyword tests, which are ASCII-only)
* str.replace(old, new)  -> replaceChar / replaceAssign (left-to-right,
                            non-overlapping, specialised to the constant
                            patterns the source uses: one-char patterns and
                            the two-char pattern colon-equals)
* pattern in str         -> containsSub (substring test)
* str.startswith(p)      -> isPrefixOfB
* str.split(sep, 1)      -> pySplitOnce / reSplitAssign
* str.split(sep)         -> sepSplit

Numbers are Nat; node names are built with natStr (decimal rendering).
-/

abbrev Str := List Char

/-- Converts a Lean string literal to the character-list model. -/
def pyS (s : String) : Str := s.data

/-- Python whitespace characters (ASCII portion), as used by str.split and str.strip. -/
def isSpace (c : Char) : Bool :=
  c == ' ' || c == '\t' || c == '\n' || c == '\r' || c == '\x0b' || c == '\x0c'

/-- str.upper, character-wise ASCII upcasing. -/
def sUpper (s : Str) : Str := s.map Char.toUpper

/-- str.lstrip-then-rstrip: Python str.strip(). -/
def sStrip (s : Str) : Str :=
  ((s.dropWhile isSpace).reverse.dropWhile isSpace).reverse

/-- Python str.rstrip(cs): drop trailing characters belonging to cs. -/
def rstripSet (cs : List Char) (s : Str) : Str :=
  (s.reverse.dropWhile (fun c => cs.contains c)).reverse

/-- Helper for sWords: accumulates the word being read. -/
def wordsCore (cur : Str) : Str → List Str
  | [] => if cur.isEmpty then [] else [cur]
  | c :: rest =>
    if isSpace c then
      if cur.isEmpty then wordsCore [] rest else cur :: wordsCore [] rest
    else
      wordsCore (cur ++ [c]) rest

/-- Python str.split() with no argument: split on whitespace runs, no empty words. -/
def sWords (s : Str) : List Str := wordsCore [] s

/-- Python ' '.join(ws). -/
def joinSp : List Str → Str
  | [] => []
  | [w] => w
  | w :: ws => w ++ ' ' :: joinSp ws

/-- Python '\n'.join(lines). -/
def joinNl : List Str → Str
  | [] => []
  | [w] => w
  | w :: ws => w ++ '\n' :: joinNl ws

/-- Whitespace normalisation ' '.join(s.split()), the first sanitizer step. -/
def collapseWs (s : Str) : Str := joinSp (sWords s)

/-- Python str.startswith(pat), as a boolean on character lists. -/
def isPrefixOfB : Str → Str → Bool
  | [], _ => true
  | _ :: _, [] => false
  | a :: as, b :: bs => a == b && isPrefixOfB as bs

/-- Python substring membership (pat in s). -/
def containsSub (pat : Str) : Str → Bool
  | [] => isPrefixOfB pat []
  | c :: rest => isPrefixOfB pat (c :: rest) || containsSub pat rest

/-- Python str.replace(o, new) for a one-character pattern o:
left-to-right replacement of every occurrence of o. -/
def replaceChar (o : Char) (new : Str) : Str → Str
  | [] => []
  | c :: rest => if c == o then new ++ replaceChar o new rest else c :: replaceChar o new rest

/-- Python str.replace(":=", " ← "): left-to-right non-overlapping replacement
of the two-character assignment token. -/
def replaceAssign : Str → Str
  | ':' :: '=' :: rest => ' ' :: '←' :: ' ' :: replaceAssign rest
  | c :: rest => c :: replaceAssign rest
  | [] => []

/-- Python str.split(sep, 1) restricted to its two-part result:
returns the text before the first sep and (when sep occurs) the text after it. -/
def pySplitOnce (sep : Char) : Str → Str × Option Str
  | [] => ([], none)
  | c :: rest =>
    if c == sep then ([], some rest)
    else
      let p := pySplitOnce sep rest
      (c :: p.1, p.2)

/-- re.split(":=|=", s, 1): scan left to right; at each position the pattern
":=" is tried before "=". Returns the two surrounding parts of the first match. -/
def reSplitAssign : Str → Option (Str × Str)
  | ':' :: '=' :: rest => some ([], rest)
  | '=' :: rest => some ([], rest)
  | c :: rest =>
    match reSplitAssign rest with
    | some p => some (c :: p.1, p.2)
    | none => none
  | [] => none

/-- Python str.split(sep): full split keeping empty parts (always at least one part). -/
def sepSplit (sep : Char) : Str → List Str
  | [] => [[]]
  | c :: rest =>
    if c == sep then [] :: sepSplit sep rest
    else
      match sepSplit sep rest with
      | w :: ws => (c :: w) :: ws
      | [] => [[c]]

/-- Decimal digit character. -/
def digitChar (d : Nat) : Char := Char.ofNat (48 + d)

/-- Fueled decimal rendering helper. -/
def natStrCore : Nat → Nat → Str
  | 0, _ => []
  | fuel + 1, n =>
    if n < 10 then [digitChar n]
    else natStrCore fuel (n / 10) ++ [digitChar (n % 10)]

/-- Python str(n) for a natural number. -/
def natStr (n : Nat) : Str := natStrCore (n + 1) n

/-- Python regex word character (\w), ASCII approximation used by
_simplify_function_call's pattern (\w+)\(. -/
def isWordChar (c : Char) : Bool := c.isAlphanum || c == '_'

/-- STProcessor._simplify_variable_name, first phase: strip one known long
organisational name qualifier when the name is longer than 20 characters.
All four qualifiers have length 4. -/
def stripOrgQualifier (v : Str) : Str :=
  if isPrefixOfB (pyS "PVL.") v && decide (20 < v.length) then v.drop 4
  else if isPrefixOfB (pyS "GVL.") v && decide (20 < v.length) then v.drop 4
  else if isPrefixOfB (pyS "GVL_") v && decide (20 < v.length) then v.drop 4
  else if isPrefixOfB (pyS "PVL_") v && decide (20 < v.length) then v.drop 4
  else v

/-- STProcessor._simplify_variable_name. -/
def simplifyVariableName (varName : Str) : Str :=
  let v := stripOrgQualifier varName
  if 150 < v.length && containsSub (pyS ".") v then
    let parts := sepSplit '.' v
    if 2 < parts.length then
      match parts.reverse with
      | a :: b :: _ => b ++ '.' :: a
      | _ => v
    else
      match parts.reverse with
      | a :: _ => a
      | [] => v
  else v

/-- STProcessor._simplify_function_call. -/
def simplifyFunctionCall (funcCall : Str) : Str :=
  let w := funcCall.takeWhile isWordChar
  if !w.isEmpty && isPrefixOfB (pyS "(") (funcCall.drop w.length) then
    w ++ pyS "(...)"
  else if 30 < funcCall.length then
    if containsSub (pyS "(") funcCall then pyS "complex_expr(...)" else pyS "expression"
  else funcCall

/-- The normalisation pipeline of STProcessor._clean_st_line_for_mermaid before
the length check: whitespace collapse, trailing ";:" strip, quote escaping,
":=" to arrow, "=" spacing, second whitespace collapse. -/
def cleanCore (line : Str) : Str :=
  collapseWs
    (replaceChar '=' (pyS " = ")
      (replaceAssign
        (replaceChar '"' (pyS "&quot;")
          (rstripSet [';', ':'] (collapseWs line)))))

/-- The long-line branch of _clean_st_line_for_mermaid: when the original line
contains ":=" or "=", split it at the first assignment/equality operator,
simplify the two sides when long, and reassemble with the arrow; otherwise
keep the normalised line. -/
def rebuildLA (line originalLine : Str) : Str :=
  if containsSub (pyS ":=") originalLine || containsSub (pyS "=") originalLine then
    match reSplitAssign originalLine with
    | some p =>
      let varPart := sStrip p.1
      let valPart := sStrip p.2
      let varPart := if 25 < varPart.length then simplifyVariableName varPart else varPart
      let valPart := if 25 < valPart.length then simplifyFunctionCall valPart else valPart
      varPart ++ pyS " ← " ++ valPart
    | none => cleanCore line
  else cleanCore line

/-- STProcessor._clean_st_line_for_mermaid. -/
def cleanSTLineForMermaid (line originalLine : Str) : Str :=
  let l6 := cleanCore line
  let l7 :=
    if 500 < l6.length then
      let lA := rebuildLA line originalLine
      if 80 < lA.length then lA.take 77 ++ pyS "..." else lA
    else l6
  sStrip l7

/-! The control-flow builder: STProcessor._process_st_code_improved.
The Python loop advances i by exactly one on every branch, so it is a
structural recursion over the line list carrying the mutable locals as a
state record. The case_* locals are initialised to None in Python; they are
modelled as Option Str, rendered the way an f-string renders them. -/

structure BState where
  nodeNum : Nat
  lastActionNode : Str
  inCaseStatement : Bool
  caseStartNode : Option Str
  caseConditionNode : Option Str
  caseEndNode : Option Str
  caseBranches : List Str

/-- The initial builder state of _process_st_code_improved. -/
def initState : BState :=
  ⟨1, pyS "Start", false, none, none, none, []⟩

/-- An f-string rendering of a possibly-None node variable. -/
def optNode : Option Str → Str
  | some s => s
  | none => pyS "None"

/-- Four-space indent every emitted Mermaid line starts with. -/
def ind4 : Str := pyS "    "

/-- The " --> " edge arrow. -/
def arr : Str := pyS " --> "

/-- Mermaid decision-node opener: a brace followed by a quote. -/
def dOpen : Str := pyS "\x7b\""

/-- Mermaid decision-node closer: a quote followed by a brace. -/
def dClose : Str := pyS "\"\x7d"

/-- Mermaid rectangle-node opener. -/
def rOpen : Str := pyS "[\""

/-- Mermaid rectangle-node closer. -/
def rClose : Str := pyS "\"]"

/-- The line-dispatch loop of _process_st_code_improved. Returns the emitted
Mermaid lines and the final last_action_node. -/
def processLoop : BState → List Str → List Str × Str
  | st, [] => ([], st.lastActionNode)
  | st, originalLine :: rest =>
    let line := sStrip originalLine
    if line.isEmpty then processLoop st rest
    else
      let cleanLine := cleanSTLineForMermaid line originalLine
      let upperLine := sUpper line
      if containsSub (pyS "CASE") upperLine && containsSub (pyS "OF") upperLine then
        -- CASE statement handling
        let caseStartNode := pyS "Case" ++ natStr st.nodeNum
        let caseConditionNode := pyS "CaseCond" ++ natStr st.nodeNum
        let caseEndNode := pyS "CaseEnd" ++ natStr st.nodeNum
        let emitted := [
          ind4 ++ caseStartNode ++ rOpen ++ pyS "CASE Statement" ++ rClose,
          ind4 ++ st.lastActionNode ++ arr ++ caseStartNode,
          ind4 ++ caseConditionNode ++ dOpen ++ cleanLine ++ dClose,
          ind4 ++ caseStartNode ++ arr ++ caseConditionNode]
        let st' : BState :=
          ⟨st.nodeNum + 1, caseConditionNode, true,
           some caseStartNode, some caseConditionNode, some caseEndNode, []⟩
        let r := processLoop st' rest
        (emitted ++ r.1, r.2)
      else if st.inCaseStatement && containsSub (pyS "END_CASE") upperLine then
        -- END_CASE: create the CASE end node and connect every recorded branch to it
        let emitted :=
          (ind4 ++ optNode st.caseEndNode ++ rOpen ++ pyS "End CASE" ++ rClose) ::
          st.caseBranches.map (fun branchNode => ind4 ++ branchNode ++ arr ++ optNode st.caseEndNode)
        let st' : BState :=
          ⟨st.nodeNum + 1, optNode st.caseEndNode, false,
           st.caseStartNode, st.caseConditionNode, st.caseEndNode, st.caseBranches⟩
        let r := processLoop st' rest
        (emitted ++ r.1, r.2)
      else if st.inCaseStatement && containsSub (pyS ":") line
              && !(isPrefixOfB (pyS "END_") (sStrip line)) then
        -- a CASE branch: split on the first ':' into condition and action
        match (pySplitOnce ':' line).2 with
        | some actionPart =>
          let conditionPart := (pySplitOnce ':' line).1
          let conditionClean := cleanSTLineForMermaid (sStrip conditionPart) conditionPart
          let actionClean := cleanSTLineForMermaid (sStrip actionPart) actionPart
          let actionClean := if (sStrip actionClean).isEmpty then pyS "No action" else actionClean
          let branchNode := pyS "CaseBranch" ++ natStr st.nodeNum
          let actionNode := pyS "CaseAction" ++ natStr st.nodeNum
          let emitted := [
            ind4 ++ branchNode ++ rOpen ++ conditionClean ++ rClose,
            ind4 ++ optNode st.caseConditionNode ++ arr ++ branchNode,
            ind4 ++ actionNode ++ rOpen ++ actionClean ++ rClose,
            ind4 ++ branchNode ++ arr ++ actionNode]
          let st' : BState :=
            ⟨st.nodeNum + 1, st.lastActionNode, st.inCaseStatement,
             st.caseStartNode, st.caseConditionNode, st.caseEndNode,
             st.caseBranches ++ [actionNode]⟩
          let r := processLoop st' rest
          (emitted ++ r.1, r.2)
        | none =>
          -- Python: len(parts) != 2, nothing emitted (unreachable: ':' is in line)
          processLoop st rest
      else if ([pyS "IF", pyS "THEN"]).any (fun kw => containsSub kw upperLine) then
        -- IF/THEN handling
        let conditionNode := pyS "Condition" ++ natStr st.nodeNum
        let trueActionNode := pyS "Action" ++ natStr st.nodeNum
        let falseActionNode := pyS "Action" ++ natStr (st.nodeNum + 1)
        let trueActionClean := cleanSTLineForMermaid (pyS "Then branch") (pyS "Then branch")
        let emitted := [
          ind4 ++ conditionNode ++ dOpen ++ cleanLine ++ dClose,
          ind4 ++ st.lastActionNode ++ arr ++ conditionNode,
          ind4 ++ conditionNode ++ pyS " -->|True| " ++ trueActionNode,
          ind4 ++ conditionNode ++ pyS " -->|False| " ++ falseActionNode,
          ind4 ++ trueActionNode ++ rOpen ++ trueActionClean ++ rClose]
        let st' : BState :=
          ⟨st.nodeNum + 2, trueActionNode, st.inCaseStatement,
           st.caseStartNode, st.caseConditionNode, st.caseEndNode, st.caseBranches⟩
        let r := processLoop st' rest
        (emitted ++ r.1, r.2)
      else if ([pyS "ELSIF", pyS "ELSEIF"]).any
                (fun kw => (sWords upperLine).any (fun w => containsSub kw w)) then
        -- ELSIF handling (dead code: any such line contains "IF", see the theorems)
        let conditionNode := pyS "Condition" ++ natStr st.nodeNum
        let emitted := [
          ind4 ++ conditionNode ++ dOpen ++ cleanLine ++ dClose,
          ind4 ++ pyS "Action" ++ natStr (st.nodeNum - 1) ++ arr ++ conditionNode,
          ind4 ++ conditionNode ++ pyS " -->|True| Action" ++ natStr st.nodeNum,
          ind4 ++ conditionNode ++ pyS " -->|False| Action" ++ natStr (st.nodeNum + 1)]
        let st' : BState :=
          ⟨st.nodeNum + 2, pyS "Action" ++ natStr st.nodeNum, st.inCaseStatement,
           st.caseStartNode, st.caseConditionNode, st.caseEndNode, st.caseBranches⟩
        let r := processLoop st' rest
        (emitted ++ r.1, r.2)
      else if (sWords upperLine).contains (pyS "ELSE") then
        -- ELSE handling
        let elseNode := pyS "Action" ++ natStr st.nodeNum
        let emitted := [
          ind4 ++ elseNode ++ rOpen ++ pyS "Else: " ++ cleanLine ++ rClose,
          ind4 ++ pyS "Action" ++ natStr (st.nodeNum - 1) ++ arr ++ elseNode]
        let st' : BState :=
          ⟨st.nodeNum + 1, elseNode, st.inCaseStatement,
           st.caseStartNode, st.caseConditionNode, st.caseEndNode, st.caseBranches⟩
        let r := processLoop st' rest
        (emitted ++ r.1, r.2)
      else if ([pyS "END_IF", pyS "ENDIF"]).any (fun kw => containsSub kw upperLine) then
        -- END_IF: nothing emitted, frontier kept (dead code, see the theorems)
        processLoop st rest
      else
        -- regular action/assignment
        let actionNode := pyS "Action" ++ natStr st.nodeNum
        let label := if (sStrip cleanLine).isEmpty then pyS "Empty statement" else cleanLine
        let emitted :=
          (ind4 ++ actionNode ++ rOpen ++ label ++ rClose) ::
          (if st.lastActionNode ≠ pyS "Start" then [ind4 ++ st.lastActionNode ++ arr ++ actionNode] else [])
        let st' : BState :=
          ⟨st.nodeNum + 1, actionNode, st.inCaseStatement,
           st.caseStartNode, st.caseConditionNode, st.caseEndNode, st.caseBranches⟩
        let r := processLoop st' rest
        (emitted ++ r.1, r.2)

/-- STProcessor._process_st_code_improved: strip the code, split on newlines,
run the dispatch loop from the initial state. The component name is only logged. -/
def processSTCodeImproved (stCode : Str) (_componentName : Str) : List Str × Str :=
  processLoop initState (sepSplit '\n' (sStrip stCode))

/-- STProcessor.convert_to_mermaid, as the list of emitted Mermaid lines. -/
def convertToMermaidLines (stCode name : Str) : List Str :=
  let header : List Str := [
    pyS "%% Mermaid flowchart for ST logic",
    pyS "%% Generated from PLCopen XML export",
    pyS "%% Component: " ++ name,
    pyS "%% ST Code Length: " ++ natStr stCode.length ++ pyS " characters",
    [],
    pyS "flowchart TD",
    pyS "    Start[\"Start: " ++ name ++ pyS "\"]"]
  let r := processSTCodeImproved stCode name
  header ++ r.1 ++
    (if ¬ r.2.isEmpty ∧ r.2 ≠ pyS "Start" then [ind4 ++ r.2 ++ arr ++ pyS "End"] else []) ++
    [pyS "    End[\"End: " ++ name ++ pyS "\"]"]

/-- STProcessor.convert_to_mermaid: the joined flowchart text. -/
def convertToMermaid (stCode name : Str) : Str :=
  joinNl (convertToMermaidLines stCode name)

/-! A variant of the dispatch loop with the dedicated ELSIF/ELSEIF branch and
the dedicated END_IF/ENDIF branch removed, used to state that those two
branches are dead code. Lines that would have reached them fall through to the
regular-action branch here; the equivalence theorem shows no line can. -/

/-- processLoop with the ELSIF and END_IF dispatch branches removed. -/
def processLoopReduced : BState → List Str → List Str × Str
  | st, [] => ([], st.lastActionNode)
  | st, originalLine :: rest =>
    let line := sStrip originalLine
    if line.isEmpty then processLoopReduced st rest
    else
      let cleanLine := cleanSTLineForMermaid line originalLine
      let upperLine := sUpper line
      if containsSub (pyS "CASE") upperLine && containsSub (pyS "OF") upperLine then
        let caseStartNode := pyS "Case" ++ natStr st.nodeNum
        let caseConditionNode := pyS "CaseCond" ++ natStr st.nodeNum
        let caseEndNode := pyS "CaseEnd" ++ natStr st.nodeNum
        let emitted := [
          ind4 ++ caseStartNode ++ rOpen ++ pyS "CASE Statement" ++ rClose,
          ind4 ++ st.lastActionNode ++ arr ++ caseStartNode,
          ind4 ++ caseConditionNode ++ dOpen ++ cleanLine ++ dClose,
          ind4 ++ caseStartNode ++ arr ++ caseConditionNode]
        let st' : BState :=
          ⟨st.nodeNum + 1, caseConditionNode, true,
           some caseStartNode, some caseConditionNode, some caseEndNode, []⟩
        let r := processLoopReduced st' rest
        (emitted ++ r.1, r.2)
      else if st.inCaseStatement && containsSub (pyS "END_CASE") upperLine then
        let emitted :=
          (ind4 ++ optNode st.caseEndNode ++ rOpen ++ pyS "End CASE" ++ rClose) ::
          st.caseBranches.map (fun branchNode => ind4 ++ branchNode ++ arr ++ optNode st.caseEndNode)
        let st' : BState :=
          ⟨st.nodeNum + 1, optNode st.caseEndNode, false,
           st.caseStartNode, st.caseConditionNode, st.caseEndNode, st.caseBranches⟩
        let r := processLoopReduced st' rest
        (emitted ++ r.1, r.2)
      else if st.inCaseStatement && containsSub (pyS ":") line
              && !(isPrefixOfB (pyS "END_") (sStrip line)) then
        match (pySplitOnce ':' line).2 with
        | some actionPart =>
          let conditionPart := (pySplitOnce ':' line).1
          let conditionClean := cleanSTLineForMermaid (sStrip conditionPart) conditionPart
          let actionClean := cleanSTLineForMermaid (sStrip actionPart) actionPart
          let actionClean := if (sStrip actionClean).isEmpty then pyS "No action" else actionClean
          let branchNode := pyS "CaseBranch" ++ natStr st.nodeNum
          let actionNode := pyS "CaseAction" ++ natStr st.nodeNum
          let emitted := [
            ind4 ++ branchNode ++ rOpen ++ conditionClean ++ rClose,
            ind4 ++ optNode st.caseConditionNode ++ arr ++ branchNode,
            ind4 ++ actionNode ++ rOpen ++ actionClean ++ rClose,
            ind4 ++ branchNode ++ arr ++ actionNode]
          let st' : BState :=
            ⟨st.nodeNum + 1, st.lastActionNode, st.inCaseStatement,
             st.caseStartNode, st.caseConditionNode, st.caseEndNode,
             st.caseBranches ++ [actionNode]⟩
          let r := processLoopReduced st' rest
          (emitted ++ r.1, r.2)
        | none =>
          processLoopReduced st rest
      else if ([pyS "IF", pyS "THEN"]).any (fun kw => containsSub kw upperLine) then
        let conditionNode := pyS "Condition" ++ natStr st.nodeNum
        let trueActionNode := pyS "Action" ++ natStr st.nodeNum
        let falseActionNode := pyS "Action" ++ natStr (st.nodeNum + 1)
        let trueActionClean := cleanSTLineForMermaid (pyS "Then branch") (pyS "Then branch")
        let emitted := [
          ind4 ++ conditionNode ++ dOpen ++ cleanLine ++ dClose,
          ind4 ++ st.lastActionNode ++ arr ++ conditionNode,
          ind4 ++ conditionNode ++ pyS " -->|True| " ++ trueActionNode,
          ind4 ++ conditionNode ++ pyS " -->|False| " ++ falseActionNode,
          ind4 ++ trueActionNode ++ rOpen ++ trueActionClean ++ rClose]
        let st' : BState :=
          ⟨st.nodeNum + 2, trueActionNode, st.inCaseStatement,
           st.caseStartNode, st.caseConditionNode, st.caseEndNode, st.caseBranches⟩
        let r := processLoopReduced st' rest
        (emitted ++ r.1, r.2)
      else if (sWords upperLine).contains (pyS "ELSE") then
        let elseNode := pyS "Action" ++ natStr st.nodeNum
        let emitted := [
          ind4 ++ elseNode ++ rOpen ++ pyS "Else: " ++ cleanLine ++ rClose,
          ind4 ++ pyS "Action" ++ natStr (st.nodeNum - 1) ++ arr ++ elseNode]
        let st' : BState :=
          ⟨st.nodeNum + 1, elseNode, st.inCaseStatement,
           st.caseStartNode, st.caseConditionNode, st.caseEndNode, st.caseBranches⟩
        let r := processLoopReduced st' rest
        (emitted ++ r.1, r.2)
      else
        let actionNode := pyS "Action" ++ natStr st.nodeNum
        let label := if (sStrip cleanLine).isEmpty then pyS "Empty statement" else cleanLine
        let emitted :=
          (ind4 ++ actionNode ++ rOpen ++ label ++ rClose) ::
          (if st.lastActionNode ≠ pyS "Start" then [ind4 ++ st.lastActionNode ++ arr ++ actionNode] else [])
        let st' : BState :=
          ⟨st.nodeNum + 1, actionNode, st.inCaseStatement,
           st.caseStartNode, st.caseConditionNode, st.caseEndNode, st.caseBranches⟩
        let r := processLoopReduced st' rest
        (emitted ++ r.1, r.2)

/-- _process_st_code_improved built on the reduced dispatch loop. -/
def processSTCodeImprovedReduced (stCode : Str) (_componentName : Str) : List Str × Str :=
  processLoopReduced initState (sepSplit '\n' (sStrip stCode))

/-- MermaidProcessor.convert_component, shallowly embedded. The filesystem and
XML extraction steps are abstracted into the outcomes of the body-conversion
and interface-conversion stages: each either returns the list of files it
wrote to disk or raises an exception. The stages run in order and each writes
its files before the next runs, so the second component of the result is the
list of files on disk after the call: an exception in a stage leaves the files
of the already-completed stages in place. The try/except wrapper catches any
exception and returns False for that component; on success the returned flag
is len(files_created) > 0. -/
def convertComponent (includeLogic includeInterface : Bool)
    (bodyFiles interfaceFiles : Except Str (List Str)) : Bool × List Str :=
  match (if includeLogic then bodyFiles else Except.ok []) with
  | Except.error _ => (false, [])
  | Except.ok f1 =>
    match (if includeInterface then interfaceFiles else Except.ok []) with
    | Except.error _ => (false, f1)
    | Except.ok f2 => (decide (0 < (f1 ++ f2).length), f1 ++ f2)

/-! Predicates used by the theorems. -/

/-- A word contains no whitespace character. -/
def spaceless (w : Str) : Prop := ∀ a ∈ w, isSpace a = false

/-- Holds when the string nowhere contains a ':' immediately followed by '='. -/
def noCE : Str → Bool
  | [] => true
  | [_] => true
  | c :: d :: rest => !(c == ':' && d == '=') && noCE (d :: rest)

/-- The dispatch test of the CASE-opening branch, applied to a raw line. -/
def isCaseOpenLine (ℓ : Str) : Bool :=
  containsSub (pyS "CASE") (sUpper (sStrip ℓ)) && containsSub (pyS "OF") (sUpper (sStrip ℓ))

/-- The dispatch test of the IF/THEN branch, applied to a raw line. -/
def isIfLine (ℓ : Str) : Bool :=
  ([pyS "IF", pyS "THEN"]).any (fun kw => containsSub kw (sUpper (sStrip ℓ)))

/-- The dispatch test of the ELSIF branch, applied to a raw line. -/
def isElsifLine (ℓ : Str) : Bool :=
  ([pyS "ELSIF", pyS "ELSEIF"]).any
    (fun kw => (sWords (sUpper (sStrip ℓ))).any (fun w => containsSub kw w))

/-- The dispatch test of the ELSE branch, applied to a raw line. -/
def isElseLine (ℓ : Str) : Bool := (sWords (sUpper (sStrip ℓ))).contains (pyS "ELSE")

/-- The dispatch test of the END_IF branch, applied to a raw line. -/
def isEndIfLine (ℓ : Str) : Bool :=
  ([pyS "END_IF", pyS "ENDIF"]).any (fun kw => containsSub kw (sUpper (sStrip ℓ)))

/-- A non-blank line that, outside any CASE block, reaches the default
regular-action branch of the dispatch. -/
def isPlainFirstLine (ℓ : Str) : Bool :=
  !(sStrip ℓ).isEmpty && !isCaseOpenLine ℓ && !isIfLine ℓ && !isElsifLine ℓ
    && !isElseLine ℓ && !isEndIfLine ℓ

/-- The node mentioned first in an emitted Mermaid line is an Action or
Case node: the line is four spaces, then a name starting with 'A' or 'C'. -/
def goodLine (ℓ : Str) : Prop :=
  ∃ c t, ℓ = ' ' :: ' ' :: ' ' :: ' ' :: c :: t ∧ (c = 'A' ∨ c = 'C')

/-- A node name generated by the builder: it starts with 'A' or 'C'. -/
def headAC (s : Str) : Prop := ∃ t, s = 'A' :: t ∨ s = 'C' :: t

/-- Invariant of the builder state after the frontier has left Start. -/
def StInv (st : BState) : Prop :=
  headAC st.lastActionNode ∧ (∀ b ∈ st.caseBranches, headAC b) ∧
    (st.inCaseStatement = true →
      (∃ s, st.caseConditionNode = some s ∧ headAC s) ∧
      (∃ s, st.caseEndNode = some s ∧ headAC s))

/-! Helper lemmas: boolean string tests versus Mathlib list predicates. -/

theorem isPrefixOfB_iff (p s : Str) : isPrefixOfB p s = true ↔ p <+: s := by
  induction p generalizing s with
  | nil => simp [isPrefixOfB]
  | cons a as ih =>
    cases s with
    | nil => simp [isPrefixOfB]
    | cons b bs => simp [isPrefixOfB, ih, List.cons_prefix_cons]

theorem containsSub_iff (p s : Str) : containsSub p s = true ↔ p <:+: s := by
  induction s with
  | nil => simp [containsSub, isPrefixOfB_iff]
  | cons c rest ih => simp [containsSub, isPrefixOfB_iff, ih, List.infix_cons_iff]

/-- A trailing part produced by wordsCore is either the pending word extended
by a prefix of the input, or an infix of the input. -/
theorem wordsCore_shape :
    ∀ (s cur w : Str), w ∈ wordsCore cur s →
      (∃ t, w = cur ++ t ∧ t <+: s) ∨ w <:+: s := by
  intro s
  induction s with
  | nil =>
    intro cur w hw
    unfold wordsCore at hw
    split at hw
    · simp at hw
    · simp at hw
      exact Or.inl ⟨[], by simp [hw]⟩
  | cons c rest ih =>
    intro cur w hw
    unfold wordsCore at hw
    split at hw
    · split at hw
      · rcases ih [] w hw with ⟨t, ht, hp⟩ | hin
        · exact Or.inr (List.infix_cons (by simpa [ht] using hp.isInfix))
        · exact Or.inr (List.infix_cons hin)
      · rcases List.mem_cons.mp hw with h | h
        · exact Or.inl ⟨[], by simp [h]⟩
        · rcases ih [] w h with ⟨t, ht, hp⟩ | hin
          · exact Or.inr (List.infix_cons (by simpa [ht] using hp.isInfix))
          · exact Or.inr (List.infix_cons hin)
    · rcases ih (cur ++ [c]) w hw with ⟨t, ht, hp⟩ | hin
      · refine Or.inl ⟨c :: t, by simp [ht], ?_⟩
        exact List.cons_prefix_cons.mpr ⟨rfl, hp⟩
      · exact Or.inr (List.infix_cons hin)

/-- Every word returned by str.split() is a contiguous substring of the input. -/
theorem sWords_infix_of_mem {s w : Str} (hw : w ∈ sWords s) : w <:+: s := by
  rcases wordsCore_shape s [] w hw with ⟨t, ht, hp⟩ | hin
  · simpa [ht] using hp.isInfix
  · exact hin

theorem wordsCore_words {s : Str} :
    ∀ {cur : Str}, spaceless cur → ∀ w ∈ wordsCore cur s, w ≠ [] ∧ spaceless w := by
  induction s with
  | nil =>
    intro cur hcur w hw
    unfold wordsCore at hw
    split at hw
    · simp at hw
    · simp at hw
      subst hw
      rename_i hc
      exact ⟨by simpa using hc, hcur⟩
  | cons c rest ih =>
    intro cur hcur w hw
    unfold wordsCore at hw
    split at hw
    · split at hw
      · exact ih (by intro a ha; simp at ha) w hw
      · rcases List.mem_cons.mp hw with h | h
        · subst h
          rename_i hc
          exact ⟨by simpa using hc, hcur⟩
        · exact ih (by intro a ha; simp at ha) w h
    · refine ih ?_ w hw
      intro a ha
      rcases List.mem_append.mp ha with h | h
      · exact hcur a h
      · rename_i hc
        simp at h
        subst h
        simpa using hc

/-- The words of any string are non-empty and whitespace-free. -/
theorem sWords_words {s w : Str} (hw : w ∈ sWords s) : w ≠ [] ∧ spaceless w :=
  wordsCore_words (by intro a ha; simp at ha) w hw

/-! Helper lemmas: joining, stripping and collapsing whitespace. -/

theorem dropWhile_fix_head {p : Char → Bool} {a : Char} {t : Str}
    (h : (a :: t).dropWhile p = a :: t) : p a = false := by
  cases hpa : p a
  · rfl
  · rw [List.dropWhile_cons, hpa, if_pos rfl] at h
    have := (List.dropWhile_sublist (l := t) p).length_le
    rw [h] at this
    simp at this

theorem joinSp_cons_cons (w x : Str) (ws : List Str) :
    joinSp (w :: x :: ws) = w ++ ' ' :: joinSp (x :: ws) := rfl

theorem joinSp_ne_nil {w : Str} (hw : w ≠ []) (ws : List Str) : joinSp (w :: ws) ≠ [] := by
  cases ws with
  | nil => simpa [joinSp]
  | cons x ws2 =>
    rw [joinSp_cons_cons]
    cases w with
    | nil => exact absurd rfl hw
    | cons a w' => simp

theorem joinSp_dropWhile (ws : List Str) (h : ∀ w ∈ ws, w ≠ [] ∧ spaceless w) :
    (joinSp ws).dropWhile isSpace = joinSp ws := by
  cases ws with
  | nil => rfl
  | cons w ws =>
    obtain ⟨hne, hsp⟩ := h w (by simp)
    cases w with
    | nil => exact absurd rfl hne
    | cons a w' =>
      have ha : isSpace a = false := hsp a (by simp)
      cases ws with
      | nil => simp [joinSp, List.dropWhile_cons, ha]
      | cons x ws2 => simp [joinSp_cons_cons, List.dropWhile_cons, ha]

theorem joinSp_rev_dropWhile (ws : List Str) (h : ∀ w ∈ ws, w ≠ [] ∧ spaceless w) :
    (joinSp ws).reverse.dropWhile isSpace = (joinSp ws).reverse := by
  induction ws with
  | nil => rfl
  | cons w ws ih =>
    obtain ⟨hne, hsp⟩ := h w (by simp)
    cases ws with
    | nil =>
      show (joinSp [w]).reverse.dropWhile isSpace = (joinSp [w]).reverse
      cases hr : w.reverse with
      | nil => simp [List.reverse_eq_nil_iff] at hr; exact absurd hr hne
      | cons a t =>
        have ha : a ∈ w := by
          have : a ∈ w.reverse := by rw [hr]; simp
          simpa using this
        simp [joinSp, hr, List.dropWhile_cons, hsp a ha]
    | cons x ws2 =>
      have ihx := ih (fun u hu => h u (by simp [hu]))
      rw [joinSp_cons_cons, List.reverse_append, List.reverse_cons]
      have hJ : joinSp (x :: ws2) ≠ [] := joinSp_ne_nil (h x (by simp)).1 ws2
      cases hr : (joinSp (x :: ws2)).reverse with
      | nil => simp [List.reverse_eq_nil_iff] at hr; exact absurd hr hJ
      | cons a t =>
        rw [hr] at ihx
        have ha : isSpace a = false := dropWhile_fix_head ihx
        simp [List.dropWhile_cons, ha]

theorem sWords_mem_props {s : Str} : ∀ w ∈ sWords s, w ≠ [] ∧ spaceless w :=
  fun _ hw => sWords_words hw

theorem sStrip_collapseWs (s : Str) : sStrip (collapseWs s) = collapseWs s := by
  unfold sStrip collapseWs
  rw [joinSp_dropWhile _ (sWords_mem_props), joinSp_rev_dropWhile _ (sWords_mem_props),
    List.reverse_reverse]

theorem wordsCore_cons (cur : Str) (c : Char) (rest : Str) :
    wordsCore cur (c :: rest) =
      if isSpace c then (if cur.isEmpty then wordsCore [] rest else cur :: wordsCore [] rest)
      else wordsCore (cur ++ [c]) rest := rfl

theorem wordsCore_append_word :
    ∀ (w cur t : Str), spaceless w → wordsCore cur (w ++ t) = wordsCore (cur ++ w) t := by
  intro w
  induction w with
  | nil => intro cur t _; simp
  | cons a w' ih =>
    intro cur t hsp
    have ha : isSpace a = false := hsp a (by simp)
    show wordsCore cur (a :: (w' ++ t)) = _
    rw [wordsCore_cons, ha]
    simp only [Bool.false_eq_true, if_false]
    rw [ih (cur ++ [a]) t (fun b hb => hsp b (by simp [hb]))]
    simp

theorem sWords_joinSp (ws : List Str) (h : ∀ w ∈ ws, w ≠ [] ∧ spaceless w) :
    sWords (joinSp ws) = ws := by
  induction ws with
  | nil => rfl
  | cons w ws ih =>
    obtain ⟨hne, hsp⟩ := h w (by simp)
    cases ws with
    | nil =>
      show wordsCore [] (joinSp [w]) = [w]
      have : wordsCore [] (w ++ []) = wordsCore ([] ++ w) [] := wordsCore_append_word w [] [] hsp
      simp at this
      rw [show joinSp [w] = w from rfl, this]
      unfold wordsCore
      simp [hne]
    | cons x ws2 =>
      rw [joinSp_cons_cons]
      show wordsCore [] (w ++ ' ' :: joinSp (x :: ws2)) = _
      rw [wordsCore_append_word w [] _ hsp]
      simp only [List.nil_append]
      rw [wordsCore_cons]
      simp only [show isSpace ' ' = true from rfl, if_true]
      rw [if_neg (by simpa using hne)]
      have hih := ih (fun u hu => h u (by simp [hu]))
      rw [show wordsCore [] (joinSp (x :: ws2)) = sWords (joinSp (x :: ws2)) from rfl, hih]

theorem collapseWs_idem (s : Str) : collapseWs (collapseWs s) = collapseWs s := by
  show joinSp (sWords (joinSp (sWords s))) = joinSp (sWords s)
  rw [sWords_joinSp _ (sWords_mem_props)]

/-! Helper lemmas: membership through the sanitizer steps. -/

theorem mem_rstripSet {cs : List Char} {s : Str} {a : Char} (h : a ∈ rstripSet cs s) : a ∈ s := by
  unfold rstripSet at h
  rw [List.mem_reverse] at h
  have := List.dropWhile_subset (l := s.reverse) (fun c => cs.contains c) h
  simpa using this

theorem mem_sStrip {s : Str} {a : Char} (h : a ∈ sStrip s) : a ∈ s := by
  unfold sStrip at h
  rw [List.mem_reverse] at h
  have h2 := List.dropWhile_subset (l := (s.dropWhile isSpace).reverse) isSpace h
  rw [List.mem_reverse] at h2
  exact List.dropWhile_subset isSpace h2

theorem sStrip_length_le (s : Str) : (sStrip s).length ≤ s.length := by
  unfold sStrip
  have h1 := (List.dropWhile_sublist (l := s) isSpace).length_le
  have h2 := (List.dropWhile_sublist (l := (s.dropWhile isSpace).reverse) isSpace).length_le
  simp at h2 ⊢
  omega

theorem mem_wordsCore {a : Char} :
    ∀ (s cur w : Str), w ∈ wordsCore cur s → a ∈ w → a ∈ cur ∨ a ∈ s := by
  intro s
  induction s with
  | nil =>
    intro cur w hw ha
    unfold wordsCore at hw
    split at hw
    · simp at hw
    · simp at hw
      subst hw
      exact Or.inl ha
  | cons c rest ih =>
    intro cur w hw ha
    rw [wordsCore_cons] at hw
    split at hw
    · split at hw
      · rcases ih [] w hw ha with h | h
        · simp at h
        · exact Or.inr (by simp [h])
      · rcases List.mem_cons.mp hw with h | h
        · subst h; exact Or.inl ha
        · rcases ih [] w h ha with h2 | h2
          · simp at h2
          · exact Or.inr (by simp [h2])
    · rcases ih (cur ++ [c]) w hw ha with h | h
      · rcases List.mem_append.mp h with h2 | h2
        · exact Or.inl h2
        · simp at h2; exact Or.inr (by simp [h2])
      · exact Or.inr (by simp [h])

theorem mem_joinSp {a : Char} :
    ∀ (ws : List Str), a ∈ joinSp ws → (∃ w ∈ ws, a ∈ w) ∨ a = ' ' := by
  intro ws
  induction ws with
  | nil => intro h; simp [joinSp] at h
  | cons w ws ih =>
    intro h
    cases ws with
    | nil =>
      exact Or.inl ⟨w, by simp, h⟩
    | cons x ws2 =>
      rw [joinSp_cons_cons] at h
      rcases List.mem_append.mp h with h2 | h2
      · exact Or.inl ⟨w, by simp, h2⟩
      · rcases List.mem_cons.mp h2 with h3 | h3
        · exact Or.inr h3
        · rcases ih h3 with ⟨u, hu, hau⟩ | h4
          · exact Or.inl ⟨u, by simp [hu], hau⟩
          · exact Or.inr h4

theorem mem_collapseWs {a : Char} {s : Str} (h : a ∈ collapseWs s) : a ∈ s ∨ a = ' ' := by
  rcases mem_joinSp _ h with ⟨w, hw, haw⟩ | h2
  · rcases mem_wordsCore s [] w hw haw with h3 | h3
    · simp at h3
    · exact Or.inl h3
  · exact Or.inr h2

theorem mem_replaceChar {o : Char} {new : Str} {a : Char} :
    ∀ s : Str, a ∈ replaceChar o new s → a ∈ s ∨ a ∈ new := by
  intro s
  induction s with
  | nil => intro h; simp [replaceChar] at h
  | cons c rest ih =>
    intro h
    unfold replaceChar at h
    split at h
    · rcases List.mem_append.mp h with h2 | h2
      · exact Or.inr h2
      · rcases ih h2 with h3 | h3
        · exact Or.inl (by simp [h3])
        · exact Or.inr h3
    · rcases List.mem_cons.mp h with h2 | h2
      · exact Or.inl (by simp [h2])
      · rcases ih h2 with h3 | h3
        · exact Or.inl (by simp [h3])
        · exact Or.inr h3

theorem replaceChar_eq_self {o : Char} {new : Str} :
    ∀ {s : Str}, o ∉ s → replaceChar o new s = s := by
  intro s
  induction s with
  | nil => intro _; rfl
  | cons c rest ih =>
    intro h
    unfold replaceChar
    rw [if_neg (by simp; intro hc; exact h (by simp [hc]))]
    rw [ih (fun hm => h (by simp [hm]))]

theorem mem_replaceAssign {a : Char} :
    ∀ s : Str, a ∈ replaceAssign s → a ∈ s ∨ a = ' ' ∨ a = '←' := by
  intro s
  induction s using replaceAssign.induct with
  | case1 rest ih =>
    intro h
    rw [replaceAssign] at h
    rcases List.mem_cons.mp h with h2 | h2
    · exact Or.inr (Or.inl h2)
    rcases List.mem_cons.mp h2 with h3 | h3
    · exact Or.inr (Or.inr h3)
    rcases List.mem_cons.mp h3 with h4 | h4
    · exact Or.inr (Or.inl h4)
    · rcases ih h4 with h5 | h5
      · exact Or.inl (by simp [h5])
      · exact Or.inr h5
  | case2 c rest hne ih =>
    intro h
    rw [replaceAssign.eq_2 c rest hne] at h
    rcases List.mem_cons.mp h with h2 | h2
    · exact Or.inl (by simp [h2])
    · rcases ih h2 with h3 | h3
      · exact Or.inl (by simp [h3])
      · exact Or.inr h3
  | case3 => intro h; rw [replaceAssign] at h; simp at h

/-! Helper lemmas: absence of the ":=" digram, used to show the sanitizer
fixes its own output. -/

theorem noCE_tail {c : Char} {t : Str} (h : noCE (c :: t) = true) : noCE t = true := by
  cases t with
  | nil => rfl
  | cons d r =>
    rw [show noCE (c :: d :: r) = (!(c == ':' && d == '=') && noCE (d :: r)) from rfl,
      Bool.and_eq_true] at h
    exact h.2

theorem noCE_cons_of_ne {c : Char} {t : Str} (hc : c ≠ ':') (ht : noCE t = true) :
    noCE (c :: t) = true := by
  cases t with
  | nil => rfl
  | cons d r =>
    show (!(c == ':' && d == '=') && noCE (d :: r)) = true
    simp [hc, ht]

theorem noCE_cons_of_head {c : Char} {t : Str} (hh : t.head? ≠ some '=')
    (ht : noCE t = true) : noCE (c :: t) = true := by
  cases t with
  | nil => rfl
  | cons d r =>
    show (!(c == ':' && d == '=') && noCE (d :: r)) = true
    have hd : d ≠ '=' := by simpa using hh
    simp [hd, ht]

theorem replaceAssign_head :
    ∀ s : Str, (replaceAssign s).head? = some '=' → s.head? = some '=' := by
  intro s
  induction s using replaceAssign.induct with
  | case1 rest _ => intro h; rw [replaceAssign] at h; simp at h
  | case2 c rest hne _ => intro h; rw [replaceAssign.eq_2 c rest hne] at h; simpa using h
  | case3 => intro h; rw [replaceAssign] at h; simp at h

theorem noCE_replaceAssign : ∀ s : Str, noCE (replaceAssign s) = true := by
  intro s
  induction s using replaceAssign.induct with
  | case1 rest ih =>
    rw [replaceAssign]
    exact noCE_cons_of_ne (by decide)
      (noCE_cons_of_ne (by decide) (noCE_cons_of_ne (by decide) ih))
  | case2 c rest hne ih =>
    rw [replaceAssign.eq_2 c rest hne]
    by_cases hc : c = ':'
    · refine noCE_cons_of_head ?_ ih
      intro hh
      have hr := replaceAssign_head rest hh
      cases rest with
      | nil => simp at hr
      | cons d r =>
        simp at hr
        subst hr
        exact hne r hc rfl
    · exact noCE_cons_of_ne hc ih
  | case3 => rfl

theorem replaceEq_head :
    ∀ r : Str, (replaceChar '=' (pyS " = ") r).head? ≠ some '=' := by
  intro r
  cases r with
  | nil => simp [replaceChar]
  | cons d r' =>
    unfold replaceChar
    by_cases hd : d = '='
    · rw [if_pos (by simp [hd])]
      intro h
      simp [pyS] at h
    · rw [if_neg (by simpa using hd)]
      simpa using hd

theorem noCE_replaceEq : ∀ s : Str, noCE (replaceChar '=' (pyS " = ") s) = true := by
  intro s
  induction s with
  | nil => rfl
  | cons c rest ih =>
    unfold replaceChar
    split
    · show noCE (' ' :: '=' :: ' ' :: replaceChar '=' (pyS " = ") rest) = true
      exact noCE_cons_of_ne (by decide)
        (noCE_cons_of_ne (by decide)
          (noCE_cons_of_head (replaceEq_head rest) ih))
    · exact noCE_cons_of_head (replaceEq_head rest) ih

theorem noCE_append_space :
    ∀ (a b : Str), noCE a = true → noCE b = true → noCE (a ++ ' ' :: b) = true := by
  intro a
  induction a using noCE.induct with
  | case1 =>
    intro b _ hb
    exact noCE_cons_of_ne (by decide) hb
  | case2 x =>
    intro b _ hb
    show noCE (x :: ' ' :: b) = true
    exact noCE_cons_of_head (by simp) (noCE_cons_of_ne (by decide) hb)
  | case3 c d rest ih =>
    intro b ha hb
    rw [show noCE (c :: d :: rest) = (!(c == ':' && d == '=') && noCE (d :: rest)) from rfl,
      Bool.and_eq_true] at ha
    obtain ⟨h1, h2⟩ := ha
    show noCE (c :: (d :: rest ++ ' ' :: b)) = true
    have hrec := ih b h2 hb
    show (!(c == ':' && d == '=') && noCE (d :: (rest ++ ' ' :: b))) = true
    rw [Bool.and_eq_true]
    exact ⟨h1, by simpa using hrec⟩

theorem noCE_joinSp :
    ∀ ws : List Str, (∀ w ∈ ws, noCE w = true) → noCE (joinSp ws) = true := by
  intro ws
  induction ws with
  | nil => intro _; rfl
  | cons w ws ih =>
    intro h
    cases ws with
    | nil => exact h w (by simp)
    | cons x ws2 =>
      rw [joinSp_cons_cons]
      exact noCE_append_space _ _ (h w (by simp)) (ih (fun u hu => h u (by simp [hu])))

theorem noCE_iff_not_contains :
    ∀ s : Str, noCE s = true ↔ containsSub [':', '='] s = false := by
  intro s
  induction s using noCE.induct with
  | case1 => simp [noCE, containsSub, isPrefixOfB]
  | case2 x => simp [noCE, containsSub, isPrefixOfB]
  | case3 c d rest ih =>
    show (!(c == ':' && d == '=') && noCE (d :: rest)) = true ↔ _
    rw [show containsSub [':', '='] (c :: d :: rest)
        = ((':' == c && ('=' == d && true)) || containsSub [':', '='] (d :: rest)) from rfl,
      Bool.or_eq_false_iff, ← ih, Bool.and_eq_true]
    by_cases hc : c = ':' <;> by_cases hd : d = '='
    · subst hc; subst hd; simp
    · have hd2 : ('=' == d) = false := by simp [Ne.symm hd]
      simp [hd, hd2]
    · have hc2 : (':' == c) = false := by simp [Ne.symm hc]
      simp [hc2]
      exact fun _ => Or.inl hc
    · have hc2 : (':' == c) = false := by simp [Ne.symm hc]
      simp [hc2]
      exact fun _ => Or.inl hc

theorem noCE_of_infix {t s : Str} (hs : noCE s = true) (h : t <:+: s) : noCE t = true := by
  rw [noCE_iff_not_contains] at hs ⊢
  cases hc : containsSub [':', '='] t
  · rfl
  · rw [containsSub_iff] at hc
    have h2 := hc.trans h
    rw [← containsSub_iff] at h2
    rw [h2] at hs
    simp at hs

theorem replaceAssign_eq_self : ∀ {s : Str}, noCE s = true → replaceAssign s = s := by
  intro s
  induction s using replaceAssign.induct with
  | case1 rest ih =>
    intro h
    exfalso
    have : noCE (':' :: '=' :: rest) = false := by
      show (!(':' == ':' && '=' == '=') && noCE ('=' :: rest)) = false
      simp
    rw [this] at h
    simp at h
  | case2 c rest hne ih =>
    intro h
    rw [replaceAssign.eq_2 c rest hne, ih (noCE_tail h)]
  | case3 => intro _; rfl

/-! Helper lemmas: every '=' in the sanitizer output stands as a word of its
own, so re-spacing '=' and re-collapsing is the identity. -/

theorem replaceChar_cons (o : Char) (new : Str) (c : Char) (rest : Str) :
    replaceChar o new (c :: rest) =
      if c == o then new ++ replaceChar o new rest else c :: replaceChar o new rest := rfl

theorem replaceChar_append (o : Char) (new : Str) :
    ∀ a b : Str, replaceChar o new (a ++ b) = replaceChar o new a ++ replaceChar o new b := by
  intro a b
  induction a with
  | nil => simp [replaceChar]
  | cons c rest ih =>
    show replaceChar o new (c :: (rest ++ b)) = _
    rw [replaceChar_cons, replaceChar_cons]
    by_cases h : c == o
    · rw [if_pos h, if_pos h, ih, List.append_assoc]
    · rw [if_neg h, if_neg h, ih]
      rfl

theorem wordsCore_split_at_space :
    ∀ (xs cur ys : Str), wordsCore cur (xs ++ ' ' :: ys) = wordsCore cur xs ++ wordsCore [] ys := by
  intro xs
  induction xs with
  | nil =>
    intro cur ys
    show wordsCore cur (' ' :: ys) = _
    rw [wordsCore_cons]
    simp only [show isSpace ' ' = true from rfl, if_true]
    unfold wordsCore
    by_cases hc : cur.isEmpty <;> simp [hc]
  | cons c xs' ih =>
    intro cur ys
    show wordsCore cur (c :: (xs' ++ ' ' :: ys)) = _
    rw [wordsCore_cons, wordsCore_cons]
    by_cases hs : isSpace c
    · rw [hs]
      simp only [if_true]
      by_cases hc : cur.isEmpty <;> simp [hc, ih]
    · rw [show isSpace c = false by simpa using hs]
      simp only [Bool.false_eq_true, if_false]
      exact ih (cur ++ [c]) ys

theorem wordsCore_replaceEq_isolated :
    ∀ (s cur : Str), '=' ∉ cur →
      ∀ w ∈ wordsCore cur (replaceChar '=' (pyS " = ") s), w = ['='] ∨ '=' ∉ w := by
  intro s
  induction s with
  | nil =>
    intro cur hcur w hw
    rw [show replaceChar '=' (pyS " = ") [] = [] from rfl] at hw
    unfold wordsCore at hw
    split at hw
    · simp at hw
    · simp at hw; subst hw; exact Or.inr hcur
  | cons c r ih =>
    intro cur hcur w hw
    by_cases hc : c = '='
    · subst hc
      rw [show replaceChar '=' (pyS " = ") ('=' :: r)
          = ' ' :: '=' :: ' ' :: replaceChar '=' (pyS " = ") r from rfl] at hw
      rw [wordsCore_cons] at hw
      simp only [show isSpace ' ' = true from rfl, if_true] at hw
      have hw2 : w ∈ cur :: wordsCore [] ('=' :: ' ' :: replaceChar '=' (pyS " = ") r)
          ∨ w ∈ wordsCore [] ('=' :: ' ' :: replaceChar '=' (pyS " = ") r) := by
        split at hw
        · exact Or.inr hw
        · exact Or.inl hw
      have hkey : ∀ u ∈ wordsCore [] ('=' :: ' ' :: replaceChar '=' (pyS " = ") r),
          u = ['='] ∨ '=' ∉ u := by
        intro u hu
        rw [wordsCore_cons] at hu
        simp only [show isSpace '=' = false from rfl, Bool.false_eq_true, if_false,
          List.nil_append] at hu
        rw [wordsCore_cons] at hu
        simp only [show isSpace ' ' = true from rfl, if_true] at hu
        rw [if_neg (by simp)] at hu
        rcases List.mem_cons.mp hu with h | h
        · exact Or.inl h
        · exact ih [] (by simp) u h
      rcases hw2 with h | h
      · rcases List.mem_cons.mp h with h2 | h2
        · subst h2; exact Or.inr hcur
        · exact hkey w h2
      · exact hkey w h
    · rw [show replaceChar '=' (pyS " = ") (c :: r)
          = c :: replaceChar '=' (pyS " = ") r by
            rw [replaceChar_cons, if_neg (by simpa using hc)]] at hw
      rw [wordsCore_cons] at hw
      by_cases hs : isSpace c
      · rw [hs] at hw
        simp only [if_true] at hw
        split at hw
        · exact ih [] (by simp) w hw
        · rcases List.mem_cons.mp hw with h | h
          · subst h; exact Or.inr hcur
          · exact ih [] (by simp) w h
      · rw [show isSpace c = false by simpa using hs] at hw
        simp only [Bool.false_eq_true, if_false] at hw
        refine ih (cur ++ [c]) ?_ w hw
        intro hm
        rcases List.mem_append.mp hm with h | h
        · exact hcur h
        · simp at h; exact hc h.symm

theorem sWords_replaceEq_word {w : Str} (hne : w ≠ []) (hsp : spaceless w)
    (hiso : w = ['='] ∨ '=' ∉ w) :
    sWords (replaceChar '=' (pyS " = ") w) = [w] := by
  rcases hiso with h | h
  · subst h; decide
  · rw [replaceChar_eq_self h]
    have h2 := sWords_joinSp [w] (by intro u hu; simp at hu; subst hu; exact ⟨hne, hsp⟩)
    simpa [joinSp] using h2

theorem sWords_replaceEq_joinSp :
    ∀ ws : List Str,
      (∀ w ∈ ws, w ≠ [] ∧ spaceless w ∧ (w = ['='] ∨ '=' ∉ w)) →
      sWords (replaceChar '=' (pyS " = ") (joinSp ws)) = ws := by
  intro ws
  induction ws with
  | nil => intro _; rfl
  | cons w ws ih =>
    intro h
    obtain ⟨hne, hsp, hiso⟩ := h w (by simp)
    cases ws with
    | nil => exact sWords_replaceEq_word hne hsp hiso
    | cons x ws2 =>
      rw [joinSp_cons_cons, replaceChar_append]
      rw [show replaceChar '=' (pyS " = ") (' ' :: joinSp (x :: ws2))
          = ' ' :: replaceChar '=' (pyS " = ") (joinSp (x :: ws2)) from rfl]
      show wordsCore [] (replaceChar '=' (pyS " = ") w
          ++ ' ' :: replaceChar '=' (pyS " = ") (joinSp (x :: ws2))) = _
      rw [wordsCore_split_at_space]
      rw [show wordsCore [] (replaceChar '=' (pyS " = ") w)
          = sWords (replaceChar '=' (pyS " = ") w) from rfl]
      rw [sWords_replaceEq_word hne hsp hiso]
      rw [show wordsCore [] (replaceChar '=' (pyS " = ") (joinSp (x :: ws2)))
          = sWords (replaceChar '=' (pyS " = ") (joinSp (x :: ws2))) from rfl]
      rw [ih (fun u hu => h u (by simp [hu]))]
      simp

/-! Helper lemmas: facts about the assembled sanitizer pipeline. -/

theorem replaceChar_self_not_mem {o : Char} {new : Str} (h : o ∉ new) :
    ∀ s : Str, o ∉ replaceChar o new s := by
  intro s
  induction s with
  | nil => simp [replaceChar]
  | cons c rest ih =>
    rw [replaceChar_cons]
    by_cases hc : c == o
    · rw [if_pos hc]
      intro hm
      rcases List.mem_append.mp hm with h2 | h2
      · exact h h2
      · exact ih h2
    · rw [if_neg hc]
      intro hm
      rcases List.mem_cons.mp hm with h2 | h2
      · exact hc (by simp [h2])
      · exact ih h2

theorem sStrip_cleanCore (line : Str) : sStrip (cleanCore line) = cleanCore line := by
  unfold cleanCore
  exact sStrip_collapseWs _

theorem collapseWs_cleanCore (line : Str) : collapseWs (cleanCore line) = cleanCore line := by
  unfold cleanCore
  exact collapseWs_idem _

theorem cleanCore_dropWhile (line : Str) :
    (cleanCore line).dropWhile isSpace = cleanCore line := by
  unfold cleanCore collapseWs
  exact joinSp_dropWhile _ sWords_mem_props

theorem quote_not_mem_cleanCore (line : Str) : '"' ∉ cleanCore line := by
  intro hm
  unfold cleanCore at hm
  rcases mem_collapseWs hm with h1 | h1
  · rcases mem_replaceChar _ h1 with h2 | h2
    · rcases mem_replaceAssign _ h2 with h3 | h3
      · exact replaceChar_self_not_mem (by decide) _ h3
      · rcases h3 with h4 | h4 <;> simp at h4
    · simp [pyS] at h2
  · simp at h1

theorem noCE_cleanCore (line : Str) : noCE (cleanCore line) = true := by
  unfold cleanCore collapseWs
  refine noCE_joinSp _ ?_
  intro w hw
  exact noCE_of_infix (noCE_replaceEq _) (sWords_infix_of_mem hw)

theorem collapse_replaceEq_cleanCore (line : Str) :
    collapseWs (replaceChar '=' (pyS " = ") (cleanCore line)) = cleanCore line := by
  have hprops : ∀ w ∈ sWords (replaceChar '=' (pyS " = ")
      (replaceAssign (replaceChar '"' (pyS "&quot;")
        (rstripSet [';', ':'] (collapseWs line))))),
      w ≠ [] ∧ spaceless w ∧ (w = ['='] ∨ '=' ∉ w) := by
    intro w hw
    obtain ⟨h1, h2⟩ := sWords_words hw
    exact ⟨h1, h2, wordsCore_replaceEq_isolated _ [] (by simp) w hw⟩
  have hkey := sWords_replaceEq_joinSp _ hprops
  show joinSp (sWords (replaceChar '=' (pyS " = ")
      (joinSp (sWords (replaceChar '=' (pyS " = ")
        (replaceAssign (replaceChar '"' (pyS "&quot;")
          (rstripSet [';', ':'] (collapseWs line))))))))) = _
  rw [hkey]
  rfl

theorem rstripSet_eq_self {cs : List Char} {s : Str}
    (h : ∀ a, s.reverse.head? = some a → cs.contains a = false) : rstripSet cs s = s := by
  unfold rstripSet
  cases hr : s.reverse with
  | nil =>
    simp only [List.dropWhile_nil, List.reverse_nil]
    exact (List.reverse_eq_nil_iff.mp hr).symm
  | cons a t =>
    rw [List.dropWhile_cons, h a (by rw [hr]; rfl)]
    simp only [Bool.false_eq_true, if_false]
    have h2 := congrArg List.reverse hr
    rw [List.reverse_reverse] at h2
    exact h2.symm

theorem cleanCore_fix {line : Str}
    (hrs : rstripSet [';', ':'] (cleanCore line) = cleanCore line) :
    cleanCore (cleanCore line) = cleanCore line := by
  conv_lhs => rw [cleanCore]
  rw [collapseWs_cleanCore, hrs,
    replaceChar_eq_self (quote_not_mem_cleanCore line),
    replaceAssign_eq_self (noCE_cleanCore line)]
  exact collapse_replaceEq_cleanCore line

theorem cleanSTLine_of_le500 {line : Str} (orig : Str) (h : (cleanCore line).length ≤ 500) :
    cleanSTLineForMermaid line orig = cleanCore line := by
  show sStrip (if 500 < (cleanCore line).length then _ else cleanCore line) = cleanCore line
  rw [if_neg (by omega)]
  exact sStrip_cleanCore line

/-! Helper lemmas: step equations of the dispatch loop, one per branch. -/

theorem ploop_nil (st : BState) : processLoop st [] = ([], st.lastActionNode) := rfl

theorem ploop_blank {ℓ : Str} (st : BState) (rest : List Str) (h : (sStrip ℓ).isEmpty = true) :
    processLoop st (ℓ :: rest) = processLoop st rest := by
  simp only [processLoop, h, if_true]

theorem ploop_caseopen {ℓ : Str} (st : BState) (rest : List Str)
    (hb : (sStrip ℓ).isEmpty = false)
    (h1 : (containsSub (pyS "CASE") (sUpper (sStrip ℓ))
      && containsSub (pyS "OF") (sUpper (sStrip ℓ))) = true) :
    processLoop st (ℓ :: rest) =
      ([ind4 ++ (pyS "Case" ++ natStr st.nodeNum) ++ rOpen ++ pyS "CASE Statement" ++ rClose,
        ind4 ++ st.lastActionNode ++ arr ++ (pyS "Case" ++ natStr st.nodeNum),
        ind4 ++ (pyS "CaseCond" ++ natStr st.nodeNum) ++ dOpen
          ++ cleanSTLineForMermaid (sStrip ℓ) ℓ ++ dClose,
        ind4 ++ (pyS "Case" ++ natStr st.nodeNum) ++ arr ++ (pyS "CaseCond" ++ natStr st.nodeNum)]
        ++ (processLoop ⟨st.nodeNum + 1, pyS "CaseCond" ++ natStr st.nodeNum, true,
              some (pyS "Case" ++ natStr st.nodeNum), some (pyS "CaseCond" ++ natStr st.nodeNum),
              some (pyS "CaseEnd" ++ natStr st.nodeNum), []⟩ rest).1,
       (processLoop ⟨st.nodeNum + 1, pyS "CaseCond" ++ natStr st.nodeNum, true,
              some (pyS "Case" ++ natStr st.nodeNum), some (pyS "CaseCond" ++ natStr st.nodeNum),
              some (pyS "CaseEnd" ++ natStr st.nodeNum), []⟩ rest).2) := by
  simp only [processLoop, h1, hb, Bool.false_eq_true, if_false, if_true]

theorem ploop_caseclose {ℓ : Str} (st : BState) (rest : List Str)
    (hb : (sStrip ℓ).isEmpty = false)
    (h1 : (containsSub (pyS "CASE") (sUpper (sStrip ℓ))
      && containsSub (pyS "OF") (sUpper (sStrip ℓ))) = false)
    (h2 : (st.inCaseStatement && containsSub (pyS "END_CASE") (sUpper (sStrip ℓ))) = true) :
    processLoop st (ℓ :: rest) =
      ((ind4 ++ optNode st.caseEndNode ++ rOpen ++ pyS "End CASE" ++ rClose) ::
        st.caseBranches.map (fun branchNode => ind4 ++ branchNode ++ arr ++ optNode st.caseEndNode)
        ++ (processLoop ⟨st.nodeNum + 1, optNode st.caseEndNode, false,
              st.caseStartNode, st.caseConditionNode, st.caseEndNode, st.caseBranches⟩ rest).1,
       (processLoop ⟨st.nodeNum + 1, optNode st.caseEndNode, false,
              st.caseStartNode, st.caseConditionNode, st.caseEndNode, st.caseBranches⟩ rest).2) := by
  simp only [processLoop, h1, h2, hb, Bool.false_eq_true, if_false, if_true]

theorem ploop_casebranch {ℓ actionPart : Str} (st : BState) (rest : List Str)
    (hb : (sStrip ℓ).isEmpty = false)
    (h1 : (containsSub (pyS "CASE") (sUpper (sStrip ℓ))
      && containsSub (pyS "OF") (sUpper (sStrip ℓ))) = false)
    (h2 : (st.inCaseStatement && containsSub (pyS "END_CASE") (sUpper (sStrip ℓ))) = false)
    (h3 : (st.inCaseStatement && containsSub (pyS ":") (sStrip ℓ)
      && !(isPrefixOfB (pyS "END_") (sStrip (sStrip ℓ)))) = true)
    (hsp : (pySplitOnce ':' (sStrip ℓ)).2 = some actionPart) :
    processLoop st (ℓ :: rest) =
      ([ind4 ++ (pyS "CaseBranch" ++ natStr st.nodeNum) ++ rOpen
          ++ cleanSTLineForMermaid (sStrip (pySplitOnce ':' (sStrip ℓ)).1) (pySplitOnce ':' (sStrip ℓ)).1
          ++ rClose,
        ind4 ++ optNode st.caseConditionNode ++ arr ++ (pyS "CaseBranch" ++ natStr st.nodeNum),
        ind4 ++ (pyS "CaseAction" ++ natStr st.nodeNum) ++ rOpen
          ++ (if (sStrip (cleanSTLineForMermaid (sStrip actionPart) actionPart)).isEmpty
              then pyS "No action" else cleanSTLineForMermaid (sStrip actionPart) actionPart)
          ++ rClose,
        ind4 ++ (pyS "CaseBranch" ++ natStr st.nodeNum) ++ arr
          ++ (pyS "CaseAction" ++ natStr st.nodeNum)]
        ++ (processLoop ⟨st.nodeNum + 1, st.lastActionNode, st.inCaseStatement,
              st.caseStartNode, st.caseConditionNode, st.caseEndNode,
              st.caseBranches ++ [pyS "CaseAction" ++ natStr st.nodeNum]⟩ rest).1,
       (processLoop ⟨st.nodeNum + 1, st.lastActionNode, st.inCaseStatement,
              st.caseStartNode, st.caseConditionNode, st.caseEndNode,
              st.caseBranches ++ [pyS "CaseAction" ++ natStr st.nodeNum]⟩ rest).2) := by
  simp only [processLoop, h1, h2, h3, hb, hsp, Bool.false_eq_true, if_false, if_true]

theorem ploop_casebranch_none {ℓ : Str} (st : BState) (rest : List Str)
    (hb : (sStrip ℓ).isEmpty = false)
    (h1 : (containsSub (pyS "CASE") (sUpper (sStrip ℓ))
      && containsSub (pyS "OF") (sUpper (sStrip ℓ))) = false)
    (h2 : (st.inCaseStatement && containsSub (pyS "END_CASE") (sUpper (sStrip ℓ))) = false)
    (h3 : (st.inCaseStatement && containsSub (pyS ":") (sStrip ℓ)
      && !(isPrefixOfB (pyS "END_") (sStrip (sStrip ℓ)))) = true)
    (hsp : (pySplitOnce ':' (sStrip ℓ)).2 = none) :
    processLoop st (ℓ :: rest) = processLoop st rest := by
  simp only [processLoop, h1, h2, h3, hb, hsp, Bool.false_eq_true, if_false, if_true]

theorem ploop_if {ℓ : Str} (st : BState) (rest : List Str)
    (hb : (sStrip ℓ).isEmpty = false)
    (h1 : (containsSub (pyS "CASE") (sUpper (sStrip ℓ))
      && containsSub (pyS "OF") (sUpper (sStrip ℓ))) = false)
    (h2 : (st.inCaseStatement && containsSub (pyS "END_CASE") (sUpper (sStrip ℓ))) = false)
    (h3 : (st.inCaseStatement && containsSub (pyS ":") (sStrip ℓ)
      && !(isPrefixOfB (pyS "END_") (sStrip (sStrip ℓ)))) = false)
    (h4 : (([pyS "IF", pyS "THEN"]).any
      (fun kw => containsSub kw (sUpper (sStrip ℓ)))) = true) :
    processLoop st (ℓ :: rest) =
      ([ind4 ++ (pyS "Condition" ++ natStr st.nodeNum) ++ dOpen
          ++ cleanSTLineForMermaid (sStrip ℓ) ℓ ++ dClose,
        ind4 ++ st.lastActionNode ++ arr ++ (pyS "Condition" ++ natStr st.nodeNum),
        ind4 ++ (pyS "Condition" ++ natStr st.nodeNum) ++ pyS " -->|True| "
          ++ (pyS "Action" ++ natStr st.nodeNum),
        ind4 ++ (pyS "Condition" ++ natStr st.nodeNum) ++ pyS " -->|False| "
          ++ (pyS "Action" ++ natStr (st.nodeNum + 1)),
        ind4 ++ (pyS "Action" ++ natStr st.nodeNum) ++ rOpen
          ++ cleanSTLineForMermaid (pyS "Then branch") (pyS "Then branch") ++ rClose]
        ++ (processLoop ⟨st.nodeNum + 2, pyS "Action" ++ natStr st.nodeNum, st.inCaseStatement,
              st.caseStartNode, st.caseConditionNode, st.caseEndNode, st.caseBranches⟩ rest).1,
       (processLoop ⟨st.nodeNum + 2, pyS "Action" ++ natStr st.nodeNum, st.inCaseStatement,
              st.caseStartNode, st.caseConditionNode, st.caseEndNode, st.caseBranches⟩ rest).2) := by
  simp only [processLoop, h1, h2, h3, h4, hb, Bool.false_eq_true, if_false, if_true]

theorem ploop_elsif {ℓ : Str} (st : BState) (rest : List Str)
    (hb : (sStrip ℓ).isEmpty = false)
    (h1 : (containsSub (pyS "CASE") (sUpper (sStrip ℓ))
      && containsSub (pyS "OF") (sUpper (sStrip ℓ))) = false)
    (h2 : (st.inCaseStatement && containsSub (pyS "END_CASE") (sUpper (sStrip ℓ))) = false)
    (h3 : (st.inCaseStatement && containsSub (pyS ":") (sStrip ℓ)
      && !(isPrefixOfB (pyS "END_") (sStrip (sStrip ℓ)))) = false)
    (h4 : (([pyS "IF", pyS "THEN"]).any
      (fun kw => containsSub kw (sUpper (sStrip ℓ)))) = false)
    (h5 : (([pyS "ELSIF", pyS "ELSEIF"]).any
      (fun kw => (sWords (sUpper (sStrip ℓ))).any (fun w => containsSub kw w))) = true) :
    processLoop st (ℓ :: rest) =
      ([ind4 ++ (pyS "Condition" ++ natStr st.nodeNum) ++ dOpen
          ++ cleanSTLineForMermaid (sStrip ℓ) ℓ ++ dClose,
        ind4 ++ pyS "Action" ++ natStr (st.nodeNum - 1) ++ arr
          ++ (pyS "Condition" ++ natStr st.nodeNum),
        ind4 ++ (pyS "Condition" ++ natStr st.nodeNum) ++ pyS " -->|True| Action"
          ++ natStr st.nodeNum,
        ind4 ++ (pyS "Condition" ++ natStr st.nodeNum) ++ pyS " -->|False| Action"
          ++ natStr (st.nodeNum + 1)]
        ++ (processLoop ⟨st.nodeNum + 2, pyS "Action" ++ natStr st.nodeNum, st.inCaseStatement,
              st.caseStartNode, st.caseConditionNode, st.caseEndNode, st.caseBranches⟩ rest).1,
       (processLoop ⟨st.nodeNum + 2, pyS "Action" ++ natStr st.nodeNum, st.inCaseStatement,
              st.caseStartNode, st.caseConditionNode, st.caseEndNode, st.caseBranches⟩ rest).2) := by
  simp only [processLoop, h1, h2, h3, h4, h5, hb, Bool.false_eq_true, if_false, if_true]

theorem ploop_else {ℓ : Str} (st : BState) (rest : List Str)
    (hb : (sStrip ℓ).isEmpty = false)
    (h1 : (containsSub (pyS "CASE") (sUpper (sStrip ℓ))
      && containsSub (pyS "OF") (sUpper (sStrip ℓ))) = false)
    (h2 : (st.inCaseStatement && containsSub (pyS "END_CASE") (sUpper (sStrip ℓ))) = false)
    (h3 : (st.inCaseStatement && containsSub (pyS ":") (sStrip ℓ)
      && !(isPrefixOfB (pyS "END_") (sStrip (sStrip ℓ)))) = false)
    (h4 : (([pyS "IF", pyS "THEN"]).any
      (fun kw => containsSub kw (sUpper (sStrip ℓ)))) = false)
    (h5 : (([pyS "ELSIF", pyS "ELSEIF"]).any
      (fun kw => (sWords (sUpper (sStrip ℓ))).any (fun w => containsSub kw w))) = false)
    (h6 : ((sWords (sUpper (sStrip ℓ))).contains (pyS "ELSE")) = true) :
    processLoop st (ℓ :: rest) =
      ([ind4 ++ (pyS "Action" ++ natStr st.nodeNum) ++ rOpen ++ pyS "Else: "
          ++ cleanSTLineForMermaid (sStrip ℓ) ℓ ++ rClose,
        ind4 ++ pyS "Action" ++ natStr (st.nodeNum - 1) ++ arr
          ++ (pyS "Action" ++ natStr st.nodeNum)]
        ++ (processLoop ⟨st.nodeNum + 1, pyS "Action" ++ natStr st.nodeNum, st.inCaseStatement,
              st.caseStartNode, st.caseConditionNode, st.caseEndNode, st.caseBranches⟩ rest).1,
       (processLoop ⟨st.nodeNum + 1, pyS "Action" ++ natStr st.nodeNum, st.inCaseStatement,
              st.caseStartNode, st.caseConditionNode, st.caseEndNode, st.caseBranches⟩ rest).2) := by
  simp only [processLoop, h1, h2, h3, h4, h5, h6, hb, Bool.false_eq_true, if_false, if_true]

theorem ploop_endif {ℓ : Str} (st : BState) (rest : List Str)
    (hb : (sStrip ℓ).isEmpty = false)
    (h1 : (containsSub (pyS "CASE") (sUpper (sStrip ℓ))
      && containsSub (pyS "OF") (sUpper (sStrip ℓ))) = false)
    (h2 : (st.inCaseStatement && containsSub (pyS "END_CASE") (sUpper (sStrip ℓ))) = false)
    (h3 : (st.inCaseStatement && containsSub (pyS ":") (sStrip ℓ)
      && !(isPrefixOfB (pyS "END_") (sStrip (sStrip ℓ)))) = false)
    (h4 : (([pyS "IF", pyS "THEN"]).any
      (fun kw => containsSub kw (sUpper (sStrip ℓ)))) = false)
    (h5 : (([pyS "ELSIF", pyS "ELSEIF"]).any
      (fun kw => (sWords (sUpper (sStrip ℓ))).any (fun w => containsSub kw w))) = false)
    (h6 : ((sWords (sUpper (sStrip ℓ))).contains (pyS "ELSE")) = false)
    (h7 : (([pyS "END_IF", pyS "ENDIF"]).any
      (fun kw => containsSub kw (sUpper (sStrip ℓ)))) = true) :
    processLoop st (ℓ :: rest) = processLoop st rest := by
  simp only [processLoop, h1, h2, h3, h4, h5, h6, h7, hb, Bool.false_eq_true, if_false, if_true]

theorem ploop_plain {ℓ : Str} (st : BState) (rest : List Str)
    (hb : (sStrip ℓ).isEmpty = false)
    (h1 : (containsSub (pyS "CASE") (sUpper (sStrip ℓ))
      && containsSub (pyS "OF") (sUpper (sStrip ℓ))) = false)
    (h2 : (st.inCaseStatement && containsSub (pyS "END_CASE") (sUpper (sStrip ℓ))) = false)
    (h3 : (st.inCaseStatement && containsSub (pyS ":") (sStrip ℓ)
      && !(isPrefixOfB (pyS "END_") (sStrip (sStrip ℓ)))) = false)
    (h4 : (([pyS "IF", pyS "THEN"]).any
      (fun kw => containsSub kw (sUpper (sStrip ℓ)))) = false)
    (h5 : (([pyS "ELSIF", pyS "ELSEIF"]).any
      (fun kw => (sWords (sUpper (sStrip ℓ))).any (fun w => containsSub kw w))) = false)
    (h6 : ((sWords (sUpper (sStrip ℓ))).contains (pyS "ELSE")) = false)
    (h7 : (([pyS "END_IF", pyS "ENDIF"]).any
      (fun kw => containsSub kw (sUpper (sStrip ℓ)))) = false) :
    processLoop st (ℓ :: rest) =
      ((ind4 ++ (pyS "Action" ++ natStr st.nodeNum) ++ rOpen
          ++ (if (sStrip (cleanSTLineForMermaid (sStrip ℓ) ℓ)).isEmpty
              then pyS "Empty statement" else cleanSTLineForMermaid (sStrip ℓ) ℓ)
          ++ rClose) ::
        (if st.lastActionNode ≠ pyS "Start"
          then [ind4 ++ st.lastActionNode ++ arr ++ (pyS "Action" ++ natStr st.nodeNum)] else [])
        ++ (processLoop ⟨st.nodeNum + 1, pyS "Action" ++ natStr st.nodeNum, st.inCaseStatement,
              st.caseStartNode, st.caseConditionNode, st.caseEndNode, st.caseBranches⟩ rest).1,
       (processLoop ⟨st.nodeNum + 1, pyS "Action" ++ natStr st.nodeNum, st.inCaseStatement,
              st.caseStartNode, st.caseConditionNode, st.caseEndNode, st.caseBranches⟩ rest).2) := by
  simp only [processLoop, h1, h2, h3, h4, h5, h6, h7, hb, Bool.false_eq_true, if_false, if_true]

/-! Helper lemmas: every line the loop emits names an Action/Case/Condition
node first, so no "Start --> " edge can appear once the frontier left Start. -/

theorem ploop_peel_blanks {st : BState} :
    ∀ (blanks ls : List Str), (∀ b ∈ blanks, (sStrip b).isEmpty = true) →
      processLoop st (blanks ++ ls) = processLoop st ls := by
  intro blanks
  induction blanks with
  | nil => intro ls _; rfl
  | cons b bs ih =>
    intro ls h
    rw [List.cons_append, ploop_blank _ _ (h b (by simp))]
    exact ih ls (fun x hx => h x (by simp [hx]))

theorem headAC_Case (x : Str) : headAC (pyS "Case" ++ x) := ⟨pyS "ase" ++ x, Or.inr rfl⟩

theorem headAC_CaseCond (x : Str) : headAC (pyS "CaseCond" ++ x) :=
  ⟨pyS "aseCond" ++ x, Or.inr rfl⟩

theorem headAC_CaseEnd (x : Str) : headAC (pyS "CaseEnd" ++ x) :=
  ⟨pyS "aseEnd" ++ x, Or.inr rfl⟩

theorem headAC_CaseBranch (x : Str) : headAC (pyS "CaseBranch" ++ x) :=
  ⟨pyS "aseBranch" ++ x, Or.inr rfl⟩

theorem headAC_CaseAction (x : Str) : headAC (pyS "CaseAction" ++ x) :=
  ⟨pyS "aseAction" ++ x, Or.inr rfl⟩

theorem headAC_Condition (x : Str) : headAC (pyS "Condition" ++ x) :=
  ⟨pyS "ondition" ++ x, Or.inr rfl⟩

theorem headAC_Action (x : Str) : headAC (pyS "Action" ++ x) := ⟨pyS "ction" ++ x, Or.inl rfl⟩

theorem headAC_ActionBare : headAC (pyS "Action") := ⟨pyS "ction", Or.inl rfl⟩

theorem goodLine_base {x : Str} (hx : headAC x) : goodLine (ind4 ++ x) := by
  obtain ⟨t, h | h⟩ := hx <;> subst h
  · exact ⟨'A', t, rfl, Or.inl rfl⟩
  · exact ⟨'C', t, rfl, Or.inr rfl⟩

theorem goodLine_append {ℓ t : Str} (h : goodLine ℓ) : goodLine (ℓ ++ t) := by
  obtain ⟨c, t', he, hc⟩ := h
  subst he
  exact ⟨c, t' ++ t, by simp, hc⟩

theorem goodLine_no_start_edge {out : Str} (h : goodLine out) :
    ¬ (pyS "    Start --> ") <+: out := by
  obtain ⟨c, t, he, hc⟩ := h
  subst he
  intro hp
  obtain ⟨r, hr⟩ := hp
  rw [show pyS "    Start --> " ++ r
      = ' ' :: ' ' :: ' ' :: ' ' :: 'S' :: (pyS "tart --> " ++ r) from rfl] at hr
  simp only [List.cons.injEq] at hr
  rcases hc with rfl | rfl
  · simp at hr
  · simp at hr

theorem ploop_goodLines :
    ∀ (ls : List Str) (st : BState), StInv st → ∀ out ∈ (processLoop st ls).1, goodLine out := by
  intro ls
  induction ls with
  | nil =>
    intro st _ out hout
    rw [ploop_nil] at hout
    simp at hout
  | cons ℓ rest ih =>
    intro st hinv out hout
    obtain ⟨hlast, hbr, hcase⟩ := hinv
    by_cases hb : (sStrip ℓ).isEmpty = true
    · rw [ploop_blank st rest hb] at hout
      exact ih st ⟨hlast, hbr, hcase⟩ out hout
    · replace hb : (sStrip ℓ).isEmpty = false := by simpa using hb
      by_cases h1 : (containsSub (pyS "CASE") (sUpper (sStrip ℓ))
          && containsSub (pyS "OF") (sUpper (sStrip ℓ))) = true
      · rw [ploop_caseopen st rest hb h1] at hout
        rcases List.mem_append.mp hout with hm | hm
        · simp only [List.mem_cons, List.not_mem_nil, or_false] at hm
          rcases hm with rfl | rfl | rfl | rfl
          · exact goodLine_append (goodLine_append (goodLine_append
              (goodLine_base (headAC_Case _))))
          · exact goodLine_append (goodLine_append (goodLine_base hlast))
          · exact goodLine_append (goodLine_append (goodLine_append
              (goodLine_base (headAC_CaseCond _))))
          · exact goodLine_append (goodLine_append (goodLine_base (headAC_Case _)))
        · refine ih _ ⟨headAC_CaseCond _, by simp, fun _ => ?_⟩ out hm
          exact ⟨⟨_, rfl, headAC_CaseCond _⟩, ⟨_, rfl, headAC_CaseEnd _⟩⟩
      · replace h1 : (containsSub (pyS "CASE") (sUpper (sStrip ℓ))
            && containsSub (pyS "OF") (sUpper (sStrip ℓ))) = false := by simpa using h1
        by_cases h2 : (st.inCaseStatement
            && containsSub (pyS "END_CASE") (sUpper (sStrip ℓ))) = true
        · have hic : st.inCaseStatement = true := by
            rw [Bool.and_eq_true] at h2
            exact h2.1
          obtain ⟨⟨sc, hsc, hacc⟩, ⟨se, hse, hace⟩⟩ := hcase hic
          rw [ploop_caseclose st rest hb h1 h2] at hout
          rcases List.mem_cons.mp hout with hm | hm
          · subst hm
            rw [hse]
            exact goodLine_append (goodLine_append (goodLine_append (goodLine_base hace)))
          · rcases List.mem_append.mp hm with hm2 | hm2
            · obtain ⟨b, hbmem, hbe⟩ := List.mem_map.mp hm2
              subst hbe
              rw [hse]
              exact goodLine_append (goodLine_append (goodLine_base (hbr b hbmem)))
            · refine ih _ ?_ out hm2
              refine ⟨?_, hbr, ?_⟩
              · show headAC (optNode st.caseEndNode)
                rw [hse]
                exact hace
              · exact fun hfalse => Bool.noConfusion hfalse
        · replace h2 : (st.inCaseStatement
              && containsSub (pyS "END_CASE") (sUpper (sStrip ℓ))) = false := by simpa using h2
          by_cases h3 : (st.inCaseStatement && containsSub (pyS ":") (sStrip ℓ)
              && !(isPrefixOfB (pyS "END_") (sStrip (sStrip ℓ)))) = true
          · have hic : st.inCaseStatement = true := by
              rw [Bool.and_eq_true] at h3
              rw [Bool.and_eq_true] at h3
              exact h3.1.1
            obtain ⟨⟨sc, hsc, hacc⟩, _⟩ := hcase hic
            cases hsp : (pySplitOnce ':' (sStrip ℓ)).2 with
            | none =>
              rw [ploop_casebranch_none st rest hb h1 h2 h3 hsp] at hout
              exact ih st ⟨hlast, hbr, hcase⟩ out hout
            | some actionPart =>
              rw [ploop_casebranch st rest hb h1 h2 h3 hsp] at hout
              rcases List.mem_append.mp hout with hm | hm
              · simp only [List.mem_cons, List.not_mem_nil, or_false] at hm
                rcases hm with rfl | rfl | rfl | rfl
                · exact goodLine_append (goodLine_append (goodLine_append
                    (goodLine_base (headAC_CaseBranch _))))
                · rw [hsc]
                  exact goodLine_append (goodLine_append (goodLine_base hacc))
                · exact goodLine_append (goodLine_append (goodLine_append
                    (goodLine_base (headAC_CaseAction _))))
                · exact goodLine_append (goodLine_append (goodLine_base (headAC_CaseBranch _)))
              · refine ih _ ?_ out hm
                refine ⟨hlast, ?_, hcase⟩
                intro b hbmem
                rcases List.mem_append.mp hbmem with hmb | hmb
                · exact hbr b hmb
                · simp at hmb
                  subst hmb
                  exact headAC_CaseAction _
          · replace h3 : (st.inCaseStatement && containsSub (pyS ":") (sStrip ℓ)
                && !(isPrefixOfB (pyS "END_") (sStrip (sStrip ℓ)))) = false := by simpa using h3
            by_cases h4 : (([pyS "IF", pyS "THEN"]).any
                (fun kw => containsSub kw (sUpper (sStrip ℓ)))) = true
            · rw [ploop_if st rest hb h1 h2 h3 h4] at hout
              rcases List.mem_append.mp hout with hm | hm
              · simp only [List.mem_cons, List.not_mem_nil, or_false] at hm
                rcases hm with rfl | rfl | rfl | rfl | rfl
                · exact goodLine_append (goodLine_append (goodLine_append
                    (goodLine_base (headAC_Condition _))))
                · exact goodLine_append (goodLine_append (goodLine_base hlast))
                · exact goodLine_append (goodLine_append (goodLine_base (headAC_Condition _)))
                · exact goodLine_append (goodLine_append (goodLine_base (headAC_Condition _)))
                · exact goodLine_append (goodLine_append (goodLine_append
                    (goodLine_base (headAC_Action _))))
              · refine ih _ ?_ out hm
                exact ⟨headAC_Action _, hbr, hcase⟩
            · replace h4 : (([pyS "IF", pyS "THEN"]).any
                  (fun kw => containsSub kw (sUpper (sStrip ℓ)))) = false := by simpa using h4
              by_cases h5 : (([pyS "ELSIF", pyS "ELSEIF"]).any
                  (fun kw => (sWords (sUpper (sStrip ℓ))).any (fun w => containsSub kw w))) = true
              · rw [ploop_elsif st rest hb h1 h2 h3 h4 h5] at hout
                rcases List.mem_append.mp hout with hm | hm
                · simp only [List.mem_cons, List.not_mem_nil, or_false] at hm
                  rcases hm with rfl | rfl | rfl | rfl
                  · exact goodLine_append (goodLine_append (goodLine_append
                      (goodLine_base (headAC_Condition _))))
                  · exact goodLine_append (goodLine_append (goodLine_append
                      (goodLine_base headAC_ActionBare)))
                  · exact goodLine_append (goodLine_append (goodLine_base (headAC_Condition _)))
                  · exact goodLine_append (goodLine_append (goodLine_base (headAC_Condition _)))
                · refine ih _ ?_ out hm
                  exact ⟨headAC_Action _, hbr, hcase⟩
              · replace h5 : (([pyS "ELSIF", pyS "ELSEIF"]).any
                    (fun kw => (sWords (sUpper (sStrip ℓ))).any (fun w => containsSub kw w)))
                    = false := by simpa using h5
                by_cases h6 : ((sWords (sUpper (sStrip ℓ))).contains (pyS "ELSE")) = true
                · rw [ploop_else st rest hb h1 h2 h3 h4 h5 h6] at hout
                  rcases List.mem_append.mp hout with hm | hm
                  · simp only [List.mem_cons, List.not_mem_nil, or_false] at hm
                    rcases hm with rfl | rfl
                    · exact goodLine_append (goodLine_append (goodLine_append
                        (goodLine_append (goodLine_base (headAC_Action _)))))
                    · exact goodLine_append (goodLine_append (goodLine_append
                        (goodLine_base headAC_ActionBare)))
                  · refine ih _ ?_ out hm
                    exact ⟨headAC_Action _, hbr, hcase⟩
                · replace h6 : ((sWords (sUpper (sStrip ℓ))).contains (pyS "ELSE")) = false := by
                    simpa using h6
                  by_cases h7 : (([pyS "END_IF", pyS "ENDIF"]).any
                      (fun kw => containsSub kw (sUpper (sStrip ℓ)))) = true
                  · rw [ploop_endif st rest hb h1 h2 h3 h4 h5 h6 h7] at hout
                    exact ih st ⟨hlast, hbr, hcase⟩ out hout
                  · replace h7 : (([pyS "END_IF", pyS "ENDIF"]).any
                        (fun kw => containsSub kw (sUpper (sStrip ℓ)))) = false := by simpa using h7
                    rw [ploop_plain st rest hb h1 h2 h3 h4 h5 h6 h7] at hout
                    rcases List.mem_cons.mp hout with hm | hm
                    · subst hm
                      exact goodLine_append (goodLine_append (goodLine_append
                        (goodLine_base (headAC_Action _))))
                    · rcases List.mem_append.mp hm with hm2 | hm2
                      · by_cases hg : st.lastActionNode ≠ pyS "Start"
                        · rw [if_pos hg] at hm2
                          simp only [List.mem_cons, List.not_mem_nil, or_false] at hm2
                          subst hm2
                          exact goodLine_append (goodLine_append (goodLine_base hlast))
                        · rw [if_neg hg] at hm2
                          simp at hm2
                      · refine ih _ ?_ out hm2
                        exact ⟨headAC_Action _, hbr, hcase⟩

/-! Helper lemmas: step equations of the reduced loop, and the keyword
implications showing the ELSIF and END_IF branches are unreachable. -/

theorem ploopR_nil (st : BState) : processLoopReduced st [] = ([], st.lastActionNode) := rfl

theorem ploopR_blank {ℓ : Str} (st : BState) (rest : List Str)
    (h : (sStrip ℓ).isEmpty = true) :
    processLoopReduced st (ℓ :: rest) = processLoopReduced st rest := by
  simp only [processLoopReduced, h, if_true]

theorem ploopR_caseopen {ℓ : Str} (st : BState) (rest : List Str)
    (hb : (sStrip ℓ).isEmpty = false)
    (h1 : (containsSub (pyS "CASE") (sUpper (sStrip ℓ))
      && containsSub (pyS "OF") (sUpper (sStrip ℓ))) = true) :
    processLoopReduced st (ℓ :: rest) =
      ([ind4 ++ (pyS "Case" ++ natStr st.nodeNum) ++ rOpen ++ pyS "CASE Statement" ++ rClose,
        ind4 ++ st.lastActionNode ++ arr ++ (pyS "Case" ++ natStr st.nodeNum),
        ind4 ++ (pyS "CaseCond" ++ natStr st.nodeNum) ++ dOpen
          ++ cleanSTLineForMermaid (sStrip ℓ) ℓ ++ dClose,
        ind4 ++ (pyS "Case" ++ natStr st.nodeNum) ++ arr ++ (pyS "CaseCond" ++ natStr st.nodeNum)]
        ++ (processLoopReduced ⟨st.nodeNum + 1, pyS "CaseCond" ++ natStr st.nodeNum, true,
              some (pyS "Case" ++ natStr st.nodeNum), some (pyS "CaseCond" ++ natStr st.nodeNum),
              some (pyS "CaseEnd" ++ natStr st.nodeNum), []⟩ rest).1,
       (processLoopReduced ⟨st.nodeNum + 1, pyS "CaseCond" ++ natStr st.nodeNum, true,
              some (pyS "Case" ++ natStr st.nodeNum), some (pyS "CaseCond" ++ natStr st.nodeNum),
              some (pyS "CaseEnd" ++ natStr st.nodeNum), []⟩ rest).2) := by
  simp only [processLoopReduced, h1, hb, Bool.false_eq_true, if_false, if_true]

theorem ploopR_caseclose {ℓ : Str} (st : BState) (rest : List Str)
    (hb : (sStrip ℓ).isEmpty = false)
    (h1 : (containsSub (pyS "CASE") (sUpper (sStrip ℓ))
      && containsSub (pyS "OF") (sUpper (sStrip ℓ))) = false)
    (h2 : (st.inCaseStatement && containsSub (pyS "END_CASE") (sUpper (sStrip ℓ))) = true) :
    processLoopReduced st (ℓ :: rest) =
      ((ind4 ++ optNode st.caseEndNode ++ rOpen ++ pyS "End CASE" ++ rClose) ::
        st.caseBranches.map (fun branchNode => ind4 ++ branchNode ++ arr ++ optNode st.caseEndNode)
        ++ (processLoopReduced ⟨st.nodeNum + 1, optNode st.caseEndNode, false,
              st.caseStartNode, st.caseConditionNode, st.caseEndNode, st.caseBranches⟩ rest).1,
       (processLoopReduced ⟨st.nodeNum + 1, optNode st.caseEndNode, false,
              st.caseStartNode, st.caseConditionNode, st.caseEndNode, st.caseBranches⟩ rest).2) := by
  simp only [processLoopReduced, h1, h2, hb, Bool.false_eq_true, if_false, if_true]

theorem ploopR_casebranch {ℓ actionPart : Str} (st : BState) (rest : List Str)
    (hb : (sStrip ℓ).isEmpty = false)
    (h1 : (containsSub (pyS "CASE") (sUpper (sStrip ℓ))
      && containsSub (pyS "OF") (sUpper (sStrip ℓ))) = false)
    (h2 : (st.inCaseStatement && containsSub (pyS "END_CASE") (sUpper (sStrip ℓ))) = false)
    (h3 : (st.inCaseStatement && containsSub (pyS ":") (sStrip ℓ)
      && !(isPrefixOfB (pyS "END_") (sStrip (sStrip ℓ)))) = true)
    (hsp : (pySplitOnce ':' (sStrip ℓ)).2 = some actionPart) :
    processLoopReduced st (ℓ :: rest) =
      ([ind4 ++ (pyS "CaseBranch" ++ natStr st.nodeNum) ++ rOpen
          ++ cleanSTLineForMermaid (sStrip (pySplitOnce ':' (sStrip ℓ)).1) (pySplitOnce ':' (sStrip ℓ)).1
          ++ rClose,
        ind4 ++ optNode st.caseConditionNode ++ arr ++ (pyS "CaseBranch" ++ natStr st.nodeNum),
        ind4 ++ (pyS "CaseAction" ++ natStr st.nodeNum) ++ rOpen
          ++ (if (sStrip (cleanSTLineForMermaid (sStrip actionPart) actionPart)).isEmpty
              then pyS "No action" else cleanSTLineForMermaid (sStrip actionPart) actionPart)
          ++ rClose,
        ind4 ++ (pyS "CaseBranch" ++ natStr st.nodeNum) ++ arr
          ++ (pyS "CaseAction" ++ natStr st.nodeNum)]
        ++ (processLoopReduced ⟨st.nodeNum + 1, st.lastActionNode, st.inCaseStatement,
              st.caseStartNode, st.caseConditionNode, st.caseEndNode,
              st.caseBranches ++ [pyS "CaseAction" ++ natStr st.nodeNum]⟩ rest).1,
       (processLoopReduced ⟨st.nodeNum + 1, st.lastActionNode, st.inCaseStatement,
              st.caseStartNode, st.caseConditionNode, st.caseEndNode,
              st.caseBranches ++ [pyS "CaseAction" ++ natStr st.nodeNum]⟩ rest).2) := by
  simp only [processLoopReduced, h1, h2, h3, hb, hsp, Bool.false_eq_true, if_false, if_true]

theorem ploopR_casebranch_none {ℓ : Str} (st : BState) (rest : List Str)
    (hb : (sStrip ℓ).isEmpty = false)
    (h1 : (containsSub (pyS "CASE") (sUpper (sStrip ℓ))
      && containsSub (pyS "OF") (sUpper (sStrip ℓ))) = false)
    (h2 : (st.inCaseStatement && containsSub (pyS "END_CASE") (sUpper (sStrip ℓ))) = false)
    (h3 : (st.inCaseStatement && containsSub (pyS ":") (sStrip ℓ)
      && !(isPrefixOfB (pyS "END_") (sStrip (sStrip ℓ)))) = true)
    (hsp : (pySplitOnce ':' (sStrip ℓ)).2 = none) :
    processLoopReduced st (ℓ :: rest) = processLoopReduced st rest := by
  simp only [processLoopReduced, h1, h2, h3, hb, hsp, Bool.false_eq_true, if_false, if_true]

theorem ploopR_if {ℓ : Str} (st : BState) (rest : List Str)
    (hb : (sStrip ℓ).isEmpty = false)
    (h1 : (containsSub (pyS "CASE") (sUpper (sStrip ℓ))
      && containsSub (pyS "OF") (sUpper (sStrip ℓ))) = false)
    (h2 : (st.inCaseStatement && containsSub (pyS "END_CASE") (sUpper (sStrip ℓ))) = false)
    (h3 : (st.inCaseStatement && containsSub (pyS ":") (sStrip ℓ)
      && !(isPrefixOfB (pyS "END_") (sStrip (sStrip ℓ)))) = false)
    (h4 : (([pyS "IF", pyS "THEN"]).any
      (fun kw => containsSub kw (sUpper (sStrip ℓ)))) = true) :
    processLoopReduced st (ℓ :: rest) =
      ([ind4 ++ (pyS "Condition" ++ natStr st.nodeNum) ++ dOpen
          ++ cleanSTLineForMermaid (sStrip ℓ) ℓ ++ dClose,
        ind4 ++ st.lastActionNode ++ arr ++ (pyS "Condition" ++ natStr st.nodeNum),
        ind4 ++ (pyS "Condition" ++ natStr st.nodeNum) ++ pyS " -->|True| "
          ++ (pyS "Action" ++ natStr st.nodeNum),
        ind4 ++ (pyS "Condition" ++ natStr st.nodeNum) ++ pyS " -->|False| "
          ++ (pyS "Action" ++ natStr (st.nodeNum + 1)),
        ind4 ++ (pyS "Action" ++ natStr st.nodeNum) ++ rOpen
          ++ cleanSTLineForMermaid (pyS "Then branch") (pyS "Then branch") ++ rClose]
        ++ (processLoopReduced ⟨st.nodeNum + 2, pyS "Action" ++ natStr st.nodeNum, st.inCaseStatement,
              st.caseStartNode, st.caseConditionNode, st.caseEndNode, st.caseBranches⟩ rest).1,
       (processLoopReduced ⟨st.nodeNum + 2, pyS "Action" ++ natStr st.nodeNum, st.inCaseStatement,
              st.caseStartNode, st.caseConditionNode, st.caseEndNode, st.caseBranches⟩ rest).2) := by
  simp only [processLoopReduced, h1, h2, h3, h4, hb, Bool.false_eq_true, if_false, if_true]

theorem ploopR_else {ℓ : Str} (st : BState) (rest : List Str)
    (hb : (sStrip ℓ).isEmpty = false)
    (h1 : (containsSub (pyS "CASE") (sUpper (sStrip ℓ))
      && containsSub (pyS "OF") (sUpper (sStrip ℓ))) = false)
    (h2 : (st.inCaseStatement && containsSub (pyS "END_CASE") (sUpper (sStrip ℓ))) = false)
    (h3 : (st.inCaseStatement && containsSub (pyS ":") (sStrip ℓ)
      && !(isPrefixOfB (pyS "END_") (sStrip (sStrip ℓ)))) = false)
    (h4 : (([pyS "IF", pyS "THEN"]).any
      (fun kw => containsSub kw (sUpper (sStrip ℓ)))) = false)
    (h6 : ((sWords (sUpper (sStrip ℓ))).contains (pyS "ELSE")) = true) :
    processLoopReduced st (ℓ :: rest) =
      ([ind4 ++ (pyS "Action" ++ natStr st.nodeNum) ++ rOpen ++ pyS "Else: "
          ++ cleanSTLineForMermaid (sStrip ℓ) ℓ ++ rClose,
        ind4 ++ pyS "Action" ++ natStr (st.nodeNum - 1) ++ arr
          ++ (pyS "Action" ++ natStr st.nodeNum)]
        ++ (processLoopReduced ⟨st.nodeNum + 1, pyS "Action" ++ natStr st.nodeNum, st.inCaseStatement,
              st.caseStartNode, st.caseConditionNode, st.caseEndNode, st.caseBranches⟩ rest).1,
       (processLoopReduced ⟨st.nodeNum + 1, pyS "Action" ++ natStr st.nodeNum, st.inCaseStatement,
              st.caseStartNode, st.caseConditionNode, st.caseEndNode, st.caseBranches⟩ rest).2) := by
  simp only [processLoopReduced, h1, h2, h3, h4, h6, hb, Bool.false_eq_true, if_false, if_true]

theorem ploopR_plain {ℓ : Str} (st : BState) (rest : List Str)
    (hb : (sStrip ℓ).isEmpty = false)
    (h1 : (containsSub (pyS "CASE") (sUpper (sStrip ℓ))
      && containsSub (pyS "OF") (sUpper (sStrip ℓ))) = false)
    (h2 : (st.inCaseStatement && containsSub (pyS "END_CASE") (sUpper (sStrip ℓ))) = false)
    (h3 : (st.inCaseStatement && containsSub (pyS ":") (sStrip ℓ)
      && !(isPrefixOfB (pyS "END_") (sStrip (sStrip ℓ)))) = false)
    (h4 : (([pyS "IF", pyS "THEN"]).any
      (fun kw => containsSub kw (sUpper (sStrip ℓ)))) = false)
    (h6 : ((sWords (sUpper (sStrip ℓ))).contains (pyS "ELSE")) = false) :
    processLoopReduced st (ℓ :: rest) =
      ((ind4 ++ (pyS "Action" ++ natStr st.nodeNum) ++ rOpen
          ++ (if (sStrip (cleanSTLineForMermaid (sStrip ℓ) ℓ)).isEmpty
              then pyS "Empty statement" else cleanSTLineForMermaid (sStrip ℓ) ℓ)
          ++ rClose) ::
        (if st.lastActionNode ≠ pyS "Start"
          then [ind4 ++ st.lastActionNode ++ arr ++ (pyS "Action" ++ natStr st.nodeNum)] else [])
        ++ (processLoopReduced ⟨st.nodeNum + 1, pyS "Action" ++ natStr st.nodeNum, st.inCaseStatement,
              st.caseStartNode, st.caseConditionNode, st.caseEndNode, st.caseBranches⟩ rest).1,
       (processLoopReduced ⟨st.nodeNum + 1, pyS "Action" ++ natStr st.nodeNum, st.inCaseStatement,
              st.caseStartNode, st.caseConditionNode, st.caseEndNode, st.caseBranches⟩ rest).2) := by
  simp only [processLoopReduced, h1, h2, h3, h4, h6, hb, Bool.false_eq_true, if_false, if_true]

theorem contains_of_contains_infix {p q s : Str} (hpq : containsSub p q = true)
    (hqs : q <:+: s) : containsSub p s = true := by
  rw [containsSub_iff] at hpq ⊢
  exact hpq.trans hqs

theorem elsif_implies_if {u : Str}
    (h : (([pyS "ELSIF", pyS "ELSEIF"]).any
      (fun kw => (sWords u).any (fun w => containsSub kw w))) = true) :
    (([pyS "IF", pyS "THEN"]).any (fun kw => containsSub kw u)) = true := by
  obtain ⟨kw, hkw, hw⟩ := List.any_eq_true.mp h
  obtain ⟨w, hwmem, hcont⟩ := List.any_eq_true.mp hw
  have hwin : w <:+: u := sWords_infix_of_mem hwmem
  have hif : containsSub (pyS "IF") w = true := by
    simp only [List.mem_cons, List.not_mem_nil, or_false] at hkw
    rcases hkw with rfl | rfl
    · exact contains_of_contains_infix (by decide) ((containsSub_iff _ _).mp hcont)
    · exact contains_of_contains_infix (by decide) ((containsSub_iff _ _).mp hcont)
  exact List.any_eq_true.mpr ⟨pyS "IF", by simp, contains_of_contains_infix hif hwin⟩

theorem endif_implies_if {u : Str}
    (h : (([pyS "END_IF", pyS "ENDIF"]).any (fun kw => containsSub kw u)) = true) :
    (([pyS "IF", pyS "THEN"]).any (fun kw => containsSub kw u)) = true := by
  obtain ⟨kw, hkw, hcont⟩ := List.any_eq_true.mp h
  simp only [List.mem_cons, List.not_mem_nil, or_false] at hkw
  have hif : containsSub (pyS "IF") u = true := by
    rcases hkw with rfl | rfl
    · exact contains_of_contains_infix (by decide) ((containsSub_iff _ _).mp hcont)
    · exact contains_of_contains_infix (by decide) ((containsSub_iff _ _).mp hcont)
  exact List.any_eq_true.mpr ⟨pyS "IF", by simp, hif⟩

theorem processLoop_eq_reduced :
    ∀ (ls : List Str) (st : BState), processLoop st ls = processLoopReduced st ls := by
  intro ls
  induction ls with
  | nil => intro st; rfl
  | cons ℓ rest ih =>
    intro st
    by_cases hb : (sStrip ℓ).isEmpty = true
    · rw [ploop_blank st rest hb, ploopR_blank st rest hb, ih]
    · replace hb : (sStrip ℓ).isEmpty = false := by simpa using hb
      by_cases h1 : (containsSub (pyS "CASE") (sUpper (sStrip ℓ))
          && containsSub (pyS "OF") (sUpper (sStrip ℓ))) = true
      · rw [ploop_caseopen st rest hb h1, ploopR_caseopen st rest hb h1, ih]
      · replace h1 : (containsSub (pyS "CASE") (sUpper (sStrip ℓ))
            && containsSub (pyS "OF") (sUpper (sStrip ℓ))) = false := by simpa using h1
        by_cases h2 : (st.inCaseStatement
            && containsSub (pyS "END_CASE") (sUpper (sStrip ℓ))) = true
        · rw [ploop_caseclose st rest hb h1 h2, ploopR_caseclose st rest hb h1 h2, ih]
        · replace h2 : (st.inCaseStatement
              && containsSub (pyS "END_CASE") (sUpper (sStrip ℓ))) = false := by simpa using h2
          by_cases h3 : (st.inCaseStatement && containsSub (pyS ":") (sStrip ℓ)
              && !(isPrefixOfB (pyS "END_") (sStrip (sStrip ℓ)))) = true
          · cases hsp : (pySplitOnce ':' (sStrip ℓ)).2 with
            | none =>
              rw [ploop_casebranch_none st rest hb h1 h2 h3 hsp,
                ploopR_casebranch_none st rest hb h1 h2 h3 hsp, ih]
            | some actionPart =>
              rw [ploop_casebranch st rest hb h1 h2 h3 hsp,
                ploopR_casebranch st rest hb h1 h2 h3 hsp, ih]
          · replace h3 : (st.inCaseStatement && containsSub (pyS ":") (sStrip ℓ)
                && !(isPrefixOfB (pyS "END_") (sStrip (sStrip ℓ)))) = false := by simpa using h3
            by_cases h4 : (([pyS "IF", pyS "THEN"]).any
                (fun kw => containsSub kw (sUpper (sStrip ℓ)))) = true
            · rw [ploop_if st rest hb h1 h2 h3 h4, ploopR_if st rest hb h1 h2 h3 h4, ih]
            · replace h4 : (([pyS "IF", pyS "THEN"]).any
                  (fun kw => containsSub kw (sUpper (sStrip ℓ)))) = false := by simpa using h4
              have h5 : (([pyS "ELSIF", pyS "ELSEIF"]).any
                  (fun kw => (sWords (sUpper (sStrip ℓ))).any (fun w => containsSub kw w)))
                  = false := by
                cases h5e : (([pyS "ELSIF", pyS "ELSEIF"]).any
                    (fun kw => (sWords (sUpper (sStrip ℓ))).any (fun w => containsSub kw w))) with
                | false => rfl
                | true =>
                  rw [elsif_implies_if h5e] at h4
                  simp at h4
              have h7 : (([pyS "END_IF", pyS "ENDIF"]).any
                  (fun kw => containsSub kw (sUpper (sStrip ℓ)))) = false := by
                cases h7e : (([pyS "END_IF", pyS "ENDIF"]).any
                    (fun kw => containsSub kw (sUpper (sStrip ℓ)))) with
                | false => rfl
                | true =>
                  rw [endif_implies_if h7e] at h4
                  simp at h4
              by_cases h6 : ((sWords (sUpper (sStrip ℓ))).contains (pyS "ELSE")) = true
              · rw [ploop_else st rest hb h1 h2 h3 h4 h5 h6,
                  ploopR_else st rest hb h1 h2 h3 h4 h6, ih]
              · replace h6 : ((sWords (sUpper (sStrip ℓ))).contains (pyS "ELSE")) = false := by
                  simpa using h6
                rw [ploop_plain st rest hb h1 h2 h3 h4 h5 h6 h7,
                  ploopR_plain st rest hb h1 h2 h3 h4 h6, ih]

/-! Helper lemmas: the long-line path of the sanitizer. -/

theorem cleanSTLine_of_gt500 {line : Str} (orig : Str) (h : 500 < (cleanCore line).length) :
    cleanSTLineForMermaid line orig
      = sStrip (if 80 < (rebuildLA line orig).length
          then (rebuildLA line orig).take 77 ++ pyS "..." else rebuildLA line orig) := by
  show sStrip (if 500 < (cleanCore line).length then _ else cleanCore line) = _
  rw [if_pos h]

theorem trunc_len_le (lA : Str) :
    (sStrip (if 80 < lA.length then lA.take 77 ++ pyS "..." else lA)).length ≤ 80 := by
  by_cases hl : 80 < lA.length
  · rw [if_pos hl]
    have h1 := sStrip_length_le (lA.take 77 ++ pyS "...")
    have h2 : (lA.take 77 ++ pyS "...").length ≤ 80 := by
      rw [List.length_append, List.length_take]
      have h3 : (pyS "...").length = 3 := rfl
      omega
    omega
  · rw [if_neg hl]
    have := sStrip_length_le lA
    omega

theorem sStrip_trunc {t : Str} (hd : t.dropWhile isSpace = t) (hne : t ≠ []) :
    sStrip (t.take 77 ++ pyS "...") = t.take 77 ++ pyS "..." := by
  cases t with
  | nil => exact absurd rfl hne
  | cons a t' =>
    have ha : isSpace a = false := dropWhile_fix_head hd
    have h1 : ((a :: t').take 77 ++ pyS "...").dropWhile isSpace
        = (a :: t').take 77 ++ pyS "..." := by
      rw [show (77 : Nat) = 76 + 1 from rfl, List.take_succ_cons]
      show (a :: (t'.take 76 ++ pyS "...")).dropWhile isSpace = _
      rw [List.dropWhile_cons, ha]
      simp
    have h2 : ((a :: t').take 77 ++ pyS "...").reverse
        = '.' :: '.' :: '.' :: ((a :: t').take 77).reverse := by
      rw [List.reverse_append]
      rfl
    unfold sStrip
    rw [h1, h2, List.dropWhile_cons, show isSpace '.' = false from rfl]
    simp only [Bool.false_eq_true, if_false]
    rw [← h2, List.reverse_reverse]

theorem joinNl_ne_nil {w : Str} (hw : w ≠ []) (ws : List Str) : joinNl (w :: ws) ≠ [] := by
  cases ws with
  | nil => simpa [joinNl]
  | cons x ws2 =>
    show w ++ '\n' :: joinNl (x :: ws2) ≠ []
    cases w with
    | nil => exact absurd rfl hw
    | cons a w' => simp

/-! The claims. -/

/-- Claim C10 (confirmed): the dedicated ELSIF/ELSEIF branch and the dedicated
END_IF/ENDIF branch of the line-processing loop are unreachable for every
input, because any line containing those keywords also contains "IF" as a
substring and is consumed by the earlier IF/THEN branch; hence the processing
function equals the same function with those two branches removed. -/
theorem c10_dead_branches :
    (∀ (st : BState) (ls : List Str), processLoop st ls = processLoopReduced st ls)
    ∧ ∀ (stCode name : Str),
        processSTCodeImproved stCode name = processSTCodeImprovedReduced stCode name := by
  refine ⟨fun st ls => processLoop_eq_reduced ls st, fun stCode name => ?_⟩
  unfold processSTCodeImproved processSTCodeImprovedReduced
  exact processLoop_eq_reduced _ _

/-- Claim C3, counterexample: when the body conversion raises, convert_component
reports failure (False) for that component and creates no files at all; in
particular no fallback single-node graph holding the raw source is produced,
contradicting the claim that a minimal fallback graph is substituted instead of
failing the conversion of that component. -/
theorem c3_counterexample :
    (convertComponent true true (Except.error (pyS "boom")) (Except.ok [])).1 = false
    ∧ (convertComponent true true (Except.error (pyS "boom")) (Except.ok [])).2 = [] := by
  exact ⟨rfl, rfl⟩

/-- Claim C3, amended: if the control-flow building step (the body-conversion
stage, the first stage of the try block) throws, convert_component catches the
exception and returns failure (False) for that component with no files created
by the call; no fallback single-node graph is substituted, the failure is
merely contained to that component. If instead the later interface stage
throws after a successful body stage, the call likewise returns False and
substitutes nothing, but the files the body stage already wrote remain. -/
theorem c3_amended :
    (∀ (e : Str) (includeInterface : Bool) (interfaceFiles : Except Str (List Str)),
      convertComponent true includeInterface (Except.error e) interfaceFiles = (false, []))
    ∧ (∀ (f1 : List Str) (e : Str),
      convertComponent true true (Except.ok f1) (Except.error e) = (false, f1)) := by
  exact ⟨fun e ii ifc => rfl, fun f1 e => rfl⟩

/-- Claim C7 (confirmed): conversion of any input string always yields diagram
text containing the Start node declaration and the End node declaration (and
the joined text is never empty), and the empty string yields exactly the fixed
two-node diagram with Start and End only: no other node and no edge. In the
total-function embedding no exception is possible by construction. -/
theorem c7_total_and_empty :
    ∀ (stCode name : Str),
      (pyS "    Start[\"Start: " ++ name ++ pyS "\"]") ∈ convertToMermaidLines stCode name
      ∧ (pyS "    End[\"End: " ++ name ++ pyS "\"]") ∈ convertToMermaidLines stCode name
      ∧ convertToMermaid stCode name ≠ []
      ∧ convertToMermaidLines (pyS "") name = [
          pyS "%% Mermaid flowchart for ST logic",
          pyS "%% Generated from PLCopen XML export",
          pyS "%% Component: " ++ name,
          pyS "%% ST Code Length: 0 characters",
          pyS "",
          pyS "flowchart TD",
          pyS "    Start[\"Start: " ++ name ++ pyS "\"]",
          pyS "    End[\"End: " ++ name ++ pyS "\"]"] := by
  intro stCode name
  refine ⟨?_, ?_, ?_, ?_⟩
  · simp [convertToMermaidLines]
  · simp [convertToMermaidLines]
  · show joinNl (convertToMermaidLines stCode name) ≠ []
    exact joinNl_ne_nil (by simp [pyS]) _
  · rfl

/-- Claim C2 (code_bug): the spec's transition table says an END_IF/ENDIF line
in the Normal state creates no node and leaves the frontier unchanged, and the
code's own dedicated END_IF branch (a no-op, with a comment saying the last
action node remains the same) shows the same intent; but that branch is dead:
the earlier IF/THEN substring test already captures every END_IF line, so the
line creates a Condition node with True/False edges and a placeholder node,
and moves the frontier. This theorem evaluates the code at the failing input
"x := 1;" followed by "END_IF". -/
theorem c2_endif_behaviour :
    processSTCodeImproved (pyS "x := 1;\nEND_IF") (pyS "Test") =
      ([pyS "    Action1[\"x ← 1\"]",
        pyS "    Condition2\x7b\"END_IF\"\x7d",
        pyS "    Action1 --> Condition2",
        pyS "    Condition2 -->|True| Action2",
        pyS "    Condition2 -->|False| Action3",
        pyS "    Action2[\"Then branch\"]"],
       pyS "Action2") := by
  decide

/-- Claim C1, counterexample: for the input of the scenario, the build output
contains two decision-node declarations (Condition1 for the IF line and, via
the dead-branch bug, Condition6 for the END_IF line), the True-labeled edge
from Condition1 goes to Action1 whose label is the placeholder "Then branch"
rather than "y ← 1", and no line carries the label "Else: y ← 0": the ELSE
line itself becomes an action node labeled "Else: ELSE". This refutes the
claimed output shape at the claim's own input. -/
theorem c1_counterexample :
    ((convertToMermaidLines (pyS "IF x > 0 THEN\n  y := 1;\nELSE\n  y := 0;\nEND_IF")
        (pyS "Test")).filter
      (fun ℓ => isPrefixOfB (pyS "    Condition") ℓ && containsSub (pyS "\x7b") ℓ)).length = 2
    ∧ (pyS "    Condition1 -->|True| Action1")
        ∈ convertToMermaidLines (pyS "IF x > 0 THEN\n  y := 1;\nELSE\n  y := 0;\nEND_IF")
            (pyS "Test")
    ∧ (pyS "    Action1[\"Then branch\"]")
        ∈ convertToMermaidLines (pyS "IF x > 0 THEN\n  y := 1;\nELSE\n  y := 0;\nEND_IF")
            (pyS "Test")
    ∧ (pyS "    Action1[\"y ← 1\"]")
        ∉ convertToMermaidLines (pyS "IF x > 0 THEN\n  y := 1;\nELSE\n  y := 0;\nEND_IF")
            (pyS "Test")
    ∧ ((convertToMermaidLines (pyS "IF x > 0 THEN\n  y := 1;\nELSE\n  y := 0;\nEND_IF")
        (pyS "Test")).all (fun ℓ => !(containsSub (pyS "Else: y ← 0") ℓ))) = true := by
  decide

/-- Claim C1, amended: for the scenario input and component "Test" the builder
produces exactly the following lines: a Condition1 decision node labeled with
the full normalised line "IF x > 0 THEN" (not just "x > 0"), a True-labeled
edge from Condition1 to the placeholder action node Action1 labeled
"Then branch", the assignment node Action3 labeled "y ← 1" chained after the
placeholder, an Else action node Action4 labeled "Else: ELSE" (the assignment
"y ← 0" becomes its own node Action5 chained after it), then a second decision
node Condition6 labeled "END_IF" produced by the END_IF line (captured by the
IF/THEN substring test) with its own placeholder Action6, and the final edge
into End leaves that placeholder. -/
theorem c1_amended :
    convertToMermaidLines (pyS "IF x > 0 THEN\n  y := 1;\nELSE\n  y := 0;\nEND_IF")
        (pyS "Test") = [
      pyS "%% Mermaid flowchart for ST logic",
      pyS "%% Generated from PLCopen XML export",
      pyS "%% Component: Test",
      pyS "%% ST Code Length: 45 characters",
      pyS "",
      pyS "flowchart TD",
      pyS "    Start[\"Start: Test\"]",
      pyS "    Condition1\x7b\"IF x > 0 THEN\"\x7d",
      pyS "    Start --> Condition1",
      pyS "    Condition1 -->|True| Action1",
      pyS "    Condition1 -->|False| Action2",
      pyS "    Action1[\"Then branch\"]",
      pyS "    Action3[\"y ← 1\"]",
      pyS "    Action1 --> Action3",
      pyS "    Action4[\"Else: ELSE\"]",
      pyS "    Action3 --> Action4",
      pyS "    Action5[\"y ← 0\"]",
      pyS "    Action4 --> Action5",
      pyS "    Condition6\x7b\"END_IF\"\x7d",
      pyS "    Action5 --> Condition6",
      pyS "    Condition6 -->|True| Action6",
      pyS "    Condition6 -->|False| Action7",
      pyS "    Action6[\"Then branch\"]",
      pyS "    Action6 --> End",
      pyS "    End[\"End: Test\"]"] := by
  decide

/-- Claim C4 (confirmed): when the very first processed line is a plain
statement, no edge from Start is emitted (the single statement "x := 1;"
yields exactly an Action node labeled "x ← 1" with no Start edge and one edge
from that node to End); whereas a CaseOpen or ConditionalOpen first line
emits an edge from Start to the new construct unconditionally. -/
theorem c4_first_line_start_edges :
    (convertToMermaidLines (pyS "x := 1;") (pyS "Test") = [
        pyS "%% Mermaid flowchart for ST logic",
        pyS "%% Generated from PLCopen XML export",
        pyS "%% Component: Test",
        pyS "%% ST Code Length: 7 characters",
        pyS "",
        pyS "flowchart TD",
        pyS "    Start[\"Start: Test\"]",
        pyS "    Action1[\"x ← 1\"]",
        pyS "    Action1 --> End",
        pyS "    End[\"End: Test\"]"])
    ∧ (∀ (blanks : List Str) (ℓ : Str) (rest : List Str),
        (∀ b ∈ blanks, (sStrip b).isEmpty = true) →
        isPlainFirstLine ℓ = true →
        ∀ out ∈ (processLoop initState (blanks ++ ℓ :: rest)).1,
          ¬ (pyS "    Start --> ") <+: out)
    ∧ (∀ (blanks : List Str) (ℓ : Str) (rest : List Str),
        (∀ b ∈ blanks, (sStrip b).isEmpty = true) →
        (sStrip ℓ).isEmpty = false →
        isCaseOpenLine ℓ = true →
        (ind4 ++ pyS "Start" ++ arr ++ (pyS "Case" ++ natStr 1))
          ∈ (processLoop initState (blanks ++ ℓ :: rest)).1)
    ∧ (∀ (blanks : List Str) (ℓ : Str) (rest : List Str),
        (∀ b ∈ blanks, (sStrip b).isEmpty = true) →
        (sStrip ℓ).isEmpty = false →
        isCaseOpenLine ℓ = false →
        isIfLine ℓ = true →
        (ind4 ++ pyS "Start" ++ arr ++ (pyS "Condition" ++ natStr 1))
          ∈ (processLoop initState (blanks ++ ℓ :: rest)).1) := by
  refine ⟨by decide, ?_, ?_, ?_⟩
  · intro blanks ℓ rest hbl hp out hout
    rw [ploop_peel_blanks blanks _ hbl] at hout
    rw [isPlainFirstLine] at hp
    simp only [Bool.and_eq_true, Bool.not_eq_true'] at hp
    obtain ⟨⟨⟨⟨⟨hb, hco⟩, hif⟩, hei⟩, hel⟩, hendif⟩ := hp
    rw [isCaseOpenLine] at hco
    rw [isIfLine] at hif
    rw [isElsifLine] at hei
    rw [isElseLine] at hel
    rw [isEndIfLine] at hendif
    have h2 : (initState.inCaseStatement
        && containsSub (pyS "END_CASE") (sUpper (sStrip ℓ))) = false := by
      rw [show initState.inCaseStatement = false from rfl]
      simp
    have h3 : (initState.inCaseStatement && containsSub (pyS ":") (sStrip ℓ)
        && !(isPrefixOfB (pyS "END_") (sStrip (sStrip ℓ)))) = false := by
      rw [show initState.inCaseStatement = false from rfl]
      simp
    rw [ploop_plain initState rest hb hco h2 h3 hif hei hel hendif] at hout
    rcases List.mem_cons.mp hout with hm | hm
    · subst hm
      exact goodLine_no_start_edge (goodLine_append (goodLine_append (goodLine_append
        (goodLine_base (headAC_Action _)))))
    · rcases List.mem_append.mp hm with hm2 | hm2
      · rw [if_neg (by simp [initState])] at hm2
        simp at hm2
      · apply goodLine_no_start_edge
        refine ploop_goodLines rest _ ?_ out hm2
        refine ⟨headAC_Action _, ?_, ?_⟩
        · intro b hb2
          exact absurd hb2 (List.not_mem_nil b)
        · exact fun hfalse => Bool.noConfusion hfalse
  · intro blanks ℓ rest hbl hb hco
    rw [ploop_peel_blanks blanks _ hbl]
    rw [isCaseOpenLine] at hco
    rw [ploop_caseopen initState rest hb hco]
    exact List.mem_append_left _ (List.mem_cons_of_mem _ (List.mem_cons_self _ _))
  · intro blanks ℓ rest hbl hb hco hif
    rw [ploop_peel_blanks blanks _ hbl]
    rw [isCaseOpenLine] at hco
    rw [isIfLine] at hif
    have h2 : (initState.inCaseStatement
        && containsSub (pyS "END_CASE") (sUpper (sStrip ℓ))) = false := by
      rw [show initState.inCaseStatement = false from rfl]
      simp
    have h3 : (initState.inCaseStatement && containsSub (pyS ":") (sStrip ℓ)
        && !(isPrefixOfB (pyS "END_") (sStrip (sStrip ℓ)))) = false := by
      rw [show initState.inCaseStatement = false from rfl]
      simp
    rw [ploop_if initState rest hb hco h2 h3 hif]
    exact List.mem_append_left _ (List.mem_cons_of_mem _ (List.mem_cons_self _ _))

/-- Claim C4, witness: the three conditional statements of the claim applied
at concrete inputs, with every hypothesis discharged by evaluation. -/
theorem c4_witness :
    (¬ (pyS "    Start --> ") <+: pyS "    Action1[\"a ← 1\"]")
    ∧ (ind4 ++ pyS "Start" ++ arr ++ (pyS "Case" ++ natStr 1))
        ∈ (processLoop initState ([] ++ pyS "CASE x OF" :: [])).1
    ∧ (ind4 ++ pyS "Start" ++ arr ++ (pyS "Condition" ++ natStr 1))
        ∈ (processLoop initState ([] ++ pyS "IF a THEN" :: [])).1 := by
  refine ⟨?_, ?_, ?_⟩
  · exact c4_first_line_start_edges.2.1 [] (pyS "a := 1;") [] (by simp) (by decide)
      (pyS "    Action1[\"a ← 1\"]") (by decide)
  · exact c4_first_line_start_edges.2.2.1 [] (pyS "CASE x OF") [] (by simp) (by decide) (by decide)
  · exact c4_first_line_start_edges.2.2.2 [] (pyS "IF a THEN") [] (by simp) (by decide) (by decide)
      (by decide)

theorem count_map_edge (ce : Str) :
    ∀ (B : List Str) (b : Str),
      (B.map (fun b0 => ind4 ++ b0 ++ arr ++ ce)).count (ind4 ++ b ++ arr ++ ce) = B.count b := by
  intro B b
  induction B with
  | nil => rfl
  | cons x xs ih =>
    simp only [List.map_cons, List.count_cons, ih]
    by_cases hxb : x = b
    · simp [hxb]
    · have hfxb : ¬ (ind4 ++ x ++ arr ++ ce) = (ind4 ++ b ++ arr ++ ce) := by
        intro hh
        exact hxb (by simpa using hh)
      simp [hxb, hfxb]

/-- Claim C5 (confirmed): on closing a CASE construct the builder emits exactly
one convergent edge into the construct's CaseEnd node per recorded
branch-terminal node: the emitted block is the CaseEnd declaration followed by
one edge per recorded branch, their number equals the number of branches
recorded, and each branch node is the source of as many of those edges as it
has entries in the branch list (one, as node numbering makes entries
distinct). The two-branch scenario yields one CaseCondition node, two
CaseBranch/CaseAction pairs, and a CaseEnd node with two convergent edges. -/
theorem c5_convergence :
    (processSTCodeImproved (pyS "CASE state OF\n  1: DoA();\n  2: DoB();\nEND_CASE")
        (pyS "Test") = ([
      pyS "    Case1[\"CASE Statement\"]",
      pyS "    Start --> Case1",
      pyS "    CaseCond1\x7b\"CASE state OF\"\x7d",
      pyS "    Case1 --> CaseCond1",
      pyS "    CaseBranch2[\"1\"]",
      pyS "    CaseCond1 --> CaseBranch2",
      pyS "    CaseAction2[\"DoA()\"]",
      pyS "    CaseBranch2 --> CaseAction2",
      pyS "    CaseBranch3[\"2\"]",
      pyS "    CaseCond1 --> CaseBranch3",
      pyS "    CaseAction3[\"DoB()\"]",
      pyS "    CaseBranch3 --> CaseAction3",
      pyS "    CaseEnd1[\"End CASE\"]",
      pyS "    CaseAction2 --> CaseEnd1",
      pyS "    CaseAction3 --> CaseEnd1"],
     pyS "CaseEnd1"))
    ∧ ∀ (n : Nat) (last cs cc ce : Str) (B : List Str) (ℓ : Str) (rest : List Str),
        (sStrip ℓ).isEmpty = false →
        (containsSub (pyS "CASE") (sUpper (sStrip ℓ))
          && containsSub (pyS "OF") (sUpper (sStrip ℓ))) = false →
        containsSub (pyS "END_CASE") (sUpper (sStrip ℓ)) = true →
        (processLoop ⟨n, last, true, some cs, some cc, some ce, B⟩ (ℓ :: rest)).1
          = (ind4 ++ ce ++ rOpen ++ pyS "End CASE" ++ rClose) ::
            B.map (fun b => ind4 ++ b ++ arr ++ ce)
            ++ (processLoop ⟨n + 1, ce, false, some cs, some cc, some ce, B⟩ rest).1
        ∧ (B.map (fun b => ind4 ++ b ++ arr ++ ce)).length = B.length
        ∧ ∀ b : Str,
            (B.map (fun b => ind4 ++ b ++ arr ++ ce)).count (ind4 ++ b ++ arr ++ ce)
              = B.count b := by
  refine ⟨by decide, ?_⟩
  intro n last cs cc ce B ℓ rest hb h1 hec
  have h2 : ((⟨n, last, true, some cs, some cc, some ce, B⟩ : BState).inCaseStatement
      && containsSub (pyS "END_CASE") (sUpper (sStrip ℓ))) = true := by
    simpa using hec
  have heq := ploop_caseclose (⟨n, last, true, some cs, some cc, some ce, B⟩ : BState) rest hb h1 h2
  refine ⟨?_, by simp, ?_⟩
  · rw [heq]
    rfl
  · intro b
    exact count_map_edge ce B b

/-- Claim C5, witness: the convergence statement applied to a concrete builder
state with one recorded branch, at the line END_CASE. -/
theorem c5_witness :
    ((processLoop ⟨5, pyS "CaseCond1", true, some (pyS "Case1"), some (pyS "CaseCond1"),
        some (pyS "CaseEnd1"), [pyS "CaseAction2"]⟩ (pyS "END_CASE" :: [])).1
      = (ind4 ++ pyS "CaseEnd1" ++ rOpen ++ pyS "End CASE" ++ rClose) ::
        ([pyS "CaseAction2"]).map (fun b => ind4 ++ b ++ arr ++ pyS "CaseEnd1")
        ++ (processLoop ⟨5 + 1, pyS "CaseEnd1", false, some (pyS "Case1"),
              some (pyS "CaseCond1"), some (pyS "CaseEnd1"), [pyS "CaseAction2"]⟩ []).1)
    ∧ (([pyS "CaseAction2"]).map (fun b => ind4 ++ b ++ arr ++ pyS "CaseEnd1")).count
        (ind4 ++ pyS "CaseAction2" ++ arr ++ pyS "CaseEnd1")
        = ([pyS "CaseAction2"] : List Str).count (pyS "CaseAction2") := by
  have h := c5_convergence.2 5 (pyS "CaseCond1") (pyS "Case1") (pyS "CaseCond1")
    (pyS "CaseEnd1") [pyS "CaseAction2"] (pyS "END_CASE") [] (by decide) (by decide) (by decide)
  exact ⟨h.1, h.2.2 (pyS "CaseAction2")⟩

set_option maxRecDepth 10000 in
/-- Claim C6, counterexample: the sanitizer's output is empty for empty input
(no placeholder is substituted by the sanitizer itself), and for a long
assignment line whose left-hand side carries a quote character the long-line
rebuild path re-reads the raw original line, so a raw quote survives into the
output. Both conjuncts of the claimed guarantee fail. -/
theorem c6_counterexample :
    cleanSTLineForMermaid (pyS "") (pyS "") = []
    ∧ '"' ∈ cleanSTLineForMermaid ('A' :: '"' :: (List.replicate 520 'b' ++ pyS " := 1"))
        ('A' :: '"' :: (List.replicate 520 'b' ++ pyS " := 1")) := by
  decide

/-- Claim C6, amended: whenever the normalised line stays within the
500-character threshold (so the raw-text rebuild path is not taken), the
sanitizer's output never contains a raw quote character; the output may be
empty, and non-empty labels are instead ensured by the builder, which
substitutes the placeholders "Empty statement" and "No action" for blank
plain-statement and case-action labels. -/
theorem c6_amended :
    ∀ (line originalLine : Str), (cleanCore line).length ≤ 500 →
      '"' ∉ cleanSTLineForMermaid line originalLine := by
  intro line orig h
  rw [cleanSTLine_of_le500 orig h]
  exact quote_not_mem_cleanCore line

/-- Claim C6, amended witness: the amended statement applied to a short
assignment line containing a quoted string. -/
theorem c6_witness :
    (cleanCore (pyS "a := \"q\";")).length ≤ 500
    ∧ '"' ∉ cleanSTLineForMermaid (pyS "a := \"q\";") (pyS "a := \"q\";") :=
  ⟨by decide, c6_amended _ _ (by decide)⟩

/-- Claim C8 (confirmed): when the normalised line exceeds 500 characters, the
output is at most 80 characters when the original line contains ":=" or "="
(truncation caps every rebuilt label at 77 characters plus the ellipsis), and
otherwise the output is exactly the normalised line hard-truncated to 77
characters with the "..." marker appended. -/
theorem c8_long_labels :
    ∀ (line originalLine : Str), 500 < (cleanCore line).length →
      ((containsSub (pyS ":=") originalLine || containsSub (pyS "=") originalLine) = true →
        (cleanSTLineForMermaid line originalLine).length ≤ 80)
      ∧ ((containsSub (pyS ":=") originalLine || containsSub (pyS "=") originalLine) = false →
        cleanSTLineForMermaid line originalLine = (cleanCore line).take 77 ++ pyS "...") := by
  intro line orig h500
  constructor
  · intro _
    rw [cleanSTLine_of_gt500 orig h500]
    exact trunc_len_le _
  · intro hnc
    rw [cleanSTLine_of_gt500 orig h500]
    have hla : rebuildLA line orig = cleanCore line := by
      unfold rebuildLA
      rw [if_neg (by rw [hnc]; simp)]
    rw [hla, if_pos (by omega)]
    refine sStrip_trunc (cleanCore_dropWhile line) ?_
    intro hnil
    rw [hnil] at h500
    simp at h500

set_option maxRecDepth 10000 in
/-- Claim C8, witness: a 501-character word without any assignment operator is
truncated to its first 77 characters plus the ellipsis marker. -/
theorem c8_witness :
    500 < (cleanCore (List.replicate 501 'b')).length
    ∧ cleanSTLineForMermaid (List.replicate 501 'b') (List.replicate 501 'b')
        = (cleanCore (List.replicate 501 'b')).take 77 ++ pyS "..." :=
  ⟨by decide, (c8_long_labels _ _ (by decide)).2 (by decide)⟩

/-- Claim C9, counterexample: sanitization is not idempotent below the length
threshold. The line consisting of x followed by a quote sanitizes to the
7-character label x&quot; (well under 500), but sanitizing that label again
strips the trailing semicolon of the quote escape, yielding x&quot instead. -/
theorem c9_counterexample :
    (cleanSTLineForMermaid (pyS "x\"") (pyS "x\"")).length < 500
    ∧ cleanSTLineForMermaid (cleanSTLineForMermaid (pyS "x\"") (pyS "x\""))
        (cleanSTLineForMermaid (pyS "x\"") (pyS "x\""))
      ≠ cleanSTLineForMermaid (pyS "x\"") (pyS "x\"") := by
  decide

/-- Claim C9, amended: sanitization is idempotent for every line whose
normalised form stays within the 500-character threshold and whose sanitized
label does not end in a semicolon or colon (a trailing semicolon arises
exactly when the original line ends in a quote, whose escape ends in one). -/
theorem c9_amended :
    ∀ (line originalLine : Str), (cleanCore line).length ≤ 500 →
      (cleanSTLineForMermaid line originalLine).reverse.head? ≠ some ';' →
      (cleanSTLineForMermaid line originalLine).reverse.head? ≠ some ':' →
      cleanSTLineForMermaid (cleanSTLineForMermaid line originalLine)
          (cleanSTLineForMermaid line originalLine)
        = cleanSTLineForMermaid line originalLine := by
  intro line orig h500 hsemi hcolon
  have ht : cleanSTLineForMermaid line orig = cleanCore line := cleanSTLine_of_le500 orig h500
  rw [ht] at hsemi hcolon ⊢
  have hlast : ∀ a, (cleanCore line).reverse.head? = some a →
      (([';', ':'] : List Char).contains a) = false := by
    intro a ha
    by_cases h1 : a = ';'
    · subst h1
      exact absurd ha hsemi
    · by_cases h2 : a = ':'
      · subst h2
        exact absurd ha hcolon
      · simp [h1, h2]
  have hrs : rstripSet [';', ':'] (cleanCore line) = cleanCore line := rstripSet_eq_self hlast
  have hfix : cleanCore (cleanCore line) = cleanCore line := cleanCore_fix hrs
  rw [cleanSTLine_of_le500 _ (by rw [hfix]; exact h500), hfix]

/-- Claim C9, amended witness: the amended idempotence applied to the
assignment line y := 1; whose sanitized label is y ← 1. -/
theorem c9_witness :
    (cleanCore (pyS "y := 1;")).length ≤ 500
    ∧ cleanSTLineForMermaid (cleanSTLineForMermaid (pyS "y := 1;") (pyS "y := 1;"))
        (cleanSTLineForMermaid (pyS "y := 1;") (pyS "y := 1;"))
      = cleanSTLineForMermaid (pyS "y := 1;") (pyS "y := 1;") :=
  ⟨by decide, c9_amended _ _ (by decide) (by decide) (by decide)⟩
